import Mathlib

/-!
Verification development for the `glow-navigator` directed-graph tool
(`glow_navigator/glow_navigator.py`, `glow_navigator/glow_utils.py`).

The Python program builds a `networkx.MultiDiGraph` whose nodes carry a
string-keyed attribute dictionary and whose (parallel) edges carry their own
attribute dictionaries, and then offers interactive selection and traversal.
We shallowly embed the relevant data model and functions:

* an attribute bag is an association list from keys to `GVal` values
  (a Python string or a list of strings, which is what the embedded
  `build_dict` helper can produce);
* the graph is the pair of its node list (key, bag) in insertion order and
  its edge list (src, dst, bag) in insertion order, which matches the
  insertion-ordered dictionaries the program relies on;
* `dict.update` / attribute assignment keep the position of existing keys
  and append new keys, as in CPython;
* regular-expression matching (`re.search`, `re.IGNORECASE`) is embedded for
  metacharacter-free patterns, for which it coincides with case-insensitive
  substring containment (`match_query` below); all patterns appearing in the
  statements are metacharacter-free;
* Python functions that can raise (`KeyError` on a missing dictionary key,
  `.lower()`/`.replace()` on a non-string) are embedded in `Except Unit`;
* the recursive traversal `walk_tree` is embedded with an explicit fuel
  parameter (`none` = fuel exhausted); its termination on every graph,
  including cyclic ones, is then a provable statement rather than an
  assumption.
-/

namespace GlowNav

/-- A Python value stored in an attribute dictionary: either a string or a
list of strings (lists arise from `XMLParser.build_dict` merging several
attributes into one field). -/
inductive GVal where
  | s (v : String)
  | lst (vs : List String)
deriving DecidableEq, Repr

/-- An attribute dictionary: association list in insertion order. -/
abbrev Bag := List (String × GVal)

/-- Dictionary lookup (first occurrence; CPython dictionaries have unique
keys, which our update operations preserve). -/
def alookup {α : Type} : List (String × α) → String → Option α
  | [], _ => none
  | (k, v) :: t, key => if k = key then some v else alookup t key

/-- Dictionary assignment `d[k] = v`: replaces the value at an existing key
in place (keeping its position) or appends a new key at the end, as CPython
dictionaries do. -/
def aset {α : Type} : List (String × α) → String → α → List (String × α)
  | [], key, v => [(key, v)]
  | (k, w) :: t, key, v => if k = key then (key, v) :: t else (k, w) :: aset t key v

/-- `d.update(other)`: assign every pair of `other` into `d`, in order. -/
def updateBag {α : Type} (base other : List (String × α)) : List (String × α) :=
  other.foldl (fun acc p => aset acc p.1 p.2) base

/-- `", ".join(...)` (a character-level `String.intercalate`). -/
def joinWith (sep : String) : List String → String
  | [] => ""
  | [x] => x
  | x :: xs => x ++ sep ++ joinWith sep xs

/-- Python `str.lower()` (character-level ASCII case mapping, which is what
`.lower()` computes on the ASCII identifiers this program handles). -/
def strLower (s : String) : String :=
  String.mk (s.data.map Char.toLower)

/-- Python `str.upper()` (character-level ASCII case mapping). -/
def strUpper (s : String) : String :=
  String.mk (s.data.map Char.toUpper)

/-- Python `str(value)` as used by `"{}".format(...)` and by `serialize`:
a string renders as itself, a list renders as `['a', 'b']`. -/
def pyStr : GVal → String
  | GVal.s v => v
  | GVal.lst vs =>
      let q := String.singleton (Char.ofNat 39)
      "[" ++ joinWith ", " (vs.map (fun v => q ++ v ++ q)) ++ "]"

/-- `glow_utils.serialize` with `display=False` (the branch used for
matching): `", ".join("k: v" for every key/value pair)`. -/
def serialize (g_dict : Bag) : String :=
  joinWith ", " (g_dict.map (fun p => p.1 ++ ": " ++ pyStr p.2))

/-- `pat` is a prefix of `l` (over characters). -/
def leadsWith : List Char → List Char → Bool
  | [], _ => true
  | _ :: _, [] => false
  | a :: as, b :: bs => a = b && leadsWith as bs

/-- Python `s.startswith(pat)`. -/
def strStartsWith (s pat : String) : Bool :=
  leadsWith pat.data s.data

/-- `pat` occurs as a contiguous sublist of `l`. -/
def listContains (pat : List Char) : List Char → Bool
  | [] => leadsWith pat []
  | c :: t => leadsWith pat (c :: t) || listContains pat t

/-- Case-insensitive substring test: this is exactly what
`re.search(pattern, target, flags=re.IGNORECASE)` computes when `pattern`
contains no regular-expression metacharacters, the only patterns we use. -/
def searchCI (pattern target : String) : Bool :=
  listContains (strLower pattern).data (strLower target).data

/-- `glow_utils.match(query, g_dict)`: serialize the dictionary and search it
with the case-insensitive pattern. -/
def match_query (query : String) (g_dict : Bag) : Bool :=
  searchCI query (serialize g_dict)

/-- `glow_utils.invalid_regex`, parameterized by the oracle
`compiles e = true` iff `re.compile(e)` succeeds.  The function answers
`True` (invalid) for a falsy expression before ever attempting to compile. -/
def invalid_regex (compiles : String → Bool) (expression : String) : Bool :=
  if expression = "" then true else !(compiles expression)

/-- The `networkx.MultiDiGraph` built by the program: node dictionary in
insertion order plus the multi-edge list in insertion order. -/
structure Graph where
  nodes : List (String × Bag)
  edges : List (String × String × Bag)
deriving DecidableEq, Repr

/-- `graph.has_node(k)`. -/
def Graph.hasNode (g : Graph) (k : String) : Bool :=
  (alookup g.nodes k).isSome

/-- `graph.node[k]` (nodes auto-added by an edge carry the empty bag). -/
def Graph.nodeData (g : Graph) (k : String) : Bag :=
  (alookup g.nodes k).getD []

/-- Insert `k` with an empty attribute dictionary unless present
(what `add_edge` does to its endpoints). -/
def ensureNode (ns : List (String × Bag)) (k : String) : List (String × Bag) :=
  if (alookup ns k).isSome then ns else ns ++ [(k, [])]

/-- `graph.add_node(k, bag)`: update the attributes of an existing node
(`dict.update`) or append a fresh node. -/
def Graph.addNode (g : Graph) (k : String) (bag : Bag) : Graph :=
  if g.hasNode k then
    { g with nodes := g.nodes.map (fun p => if p.1 = k then (p.1, updateBag p.2 bag) else p) }
  else
    { g with nodes := g.nodes ++ [(k, bag)] }

/-- `graph.add_edge(u, v, attr_dict=bag)`: auto-add the endpoints, then
append one more parallel edge. -/
def Graph.addEdge (g : Graph) (u v : String) (bag : Bag) : Graph :=
  { nodes := ensureNode (ensureNode g.nodes u) v,
    edges := g.edges ++ [(u, v, bag)] }

/-- Replace the stored attribute dictionary of node `k` (the in-place
mutation performed through the alias returned by `graph.node[k]`). -/
def Graph.setNodeData (g : Graph) (k : String) (bag : Bag) : Graph :=
  { g with nodes := g.nodes.map (fun p => if p.1 = k then (p.1, bag) else p) }

/-- First occurrences of a list, in order (distinct successor/predecessor
nodes of a multigraph). -/
def dedupGo (seen : List String) : List String → List String
  | [] => []
  | x :: t => if x ∈ seen then dedupGo seen t else x :: dedupGo (x :: seen) t

/-- `graph.successors(n)`: distinct edge targets, in edge-insertion order. -/
def Graph.successors (g : Graph) (n : String) : List String :=
  dedupGo [] ((g.edges.filter (fun e => e.1 = n)).map (fun e => e.2.1))

/-- `graph.predecessors(n)`: distinct edge sources, in edge-insertion order. -/
def Graph.predecessors (g : Graph) (n : String) : List String :=
  dedupGo [] ((g.edges.filter (fun e => e.2.1 = n)).map (fun e => e.1))

/-- `graph.in_degree(n)`: number of incoming edges, parallel edges counted. -/
def Graph.inDegree (g : Graph) (n : String) : Nat :=
  (g.edges.filter (fun e => e.2.1 = n)).length

/-- `graph.get_edge_data(u, v)` as the list of parallel-edge attribute
dictionaries, in insertion order. -/
def Graph.edgeDataBetween (g : Graph) (u v : String) : List Bag :=
  (g.edges.filter (fun e => e.1 = u && e.2.1 = v)).map (fun e => e.2.2)

/-- `graph.edges_iter(n, data=True)`: the attribute dictionaries of the
outgoing edges of `n`. -/
def Graph.outEdges (g : Graph) (n : String) : List Bag :=
  (g.edges.filter (fun e => e.1 = n)).map (fun e => e.2.2)

/-- Iteration order of `for node in graph:`. -/
def Graph.nodeOrder (g : Graph) : List String :=
  g.nodes.map Prod.fst

/-- The interactive session's settable globals
(`MAX_LEVEL`, `IGNORE_TYPES`, `EDGE_MATCH`). -/
structure Config where
  maxLevel : Nat
  ignoreTypes : List String
  edgeMatch : Bool
deriving DecidableEq, Repr

/-- `data.get("type") in IGNORE_TYPES` (a missing or list-valued `type` is
never a member of the string list). -/
def typeIgnored (cfg : Config) (bag : Bag) : Bool :=
  match alookup bag "type" with
  | some (GVal.s t) => t ∈ cfg.ignoreTypes
  | _ => false

/-- The `counts` value `"{}<{}".format(parents, children)` written by
`get_node_data`: the numbers of distinct predecessor and successor nodes. -/
def countsVal (g : Graph) (node : String) : GVal :=
  GVal.s (toString (g.predecessors node).length ++ "<" ++ toString (g.successors node).length)

/-- The effect of `get_node_data` on a node's stored dictionary: a node with
attributes gets `counts` assigned (through the alias into the graph), an
empty dictionary is left alone. -/
def annB (g : Graph) (node : String) (bag : Bag) : Bag :=
  if bag.isEmpty then bag else aset bag "counts" (countsVal g node)

/-- `get_node_data(graph, node)`: returns the node's dictionary, and — for a
node that has data — writes the transient-looking `counts` entry into the
dictionary stored in the graph (the Python code mutates the dict object the
graph holds). -/
def get_node_data (g : Graph) (node : String) : Bag × Graph :=
  let node_data := g.nodeData node
  if node_data.isEmpty then (node_data, g)
  else
    let node_data := aset node_data "counts" (countsVal g node)
    (node_data, g.setNodeData node node_data)

/-- The first outgoing edge whose `type` is not ignored: `select_nodes`'s
edge loop `continue`s past ignored edges and executes `break` at the end of
the first iteration that reaches it, so at most this one edge is examined. -/
def firstConsideredEdge (cfg : Config) : List Bag → Option Bag
  | [] => none
  | e :: rest => if typeIgnored cfg e then firstConsideredEdge cfg rest else some e

/-- One iteration of the `for node in graph:` loop of `select_nodes`. -/
def selectStep (cfg : Config) (query : String) (acc : List (String × Bag) × Graph)
    (node : String) : List (String × Bag) × Graph :=
  let (nodes, g) := acc
  let (node_data, g) := get_node_data g node
  if typeIgnored cfg node_data then (nodes, g)
  else if match_query query node_data then (nodes ++ [(node, node_data)], g)
  else if cfg.edgeMatch then
    match firstConsideredEdge cfg (g.outEdges node) with
    | none => (nodes, g)
    | some edge_data =>
        if match_query query edge_data then (nodes ++ [(node, node_data)], g)
        else (nodes, g)
  else (nodes, g)

/-- `select_nodes(graph, query)`: collect the `(node, node_data)` pairs that
match, threading the graph because `get_node_data` writes `counts` into it.
(The interactive globals `IGNORE_TYPES` / `EDGE_MATCH` are passed in `cfg`.) -/
def select_nodes (g : Graph) (cfg : Config) (query : String) :
    List (String × Bag) × Graph :=
  g.nodeOrder.foldl (selectStep cfg query) ([], g)

/-- Split a character list on a separator character. -/
def splitOnChar (sep : Char) : List Char → List (List Char)
  | [] => [[]]
  | c :: t =>
    let rest := splitOnChar sep t
    if c = sep then [] :: rest
    else
      match rest with
      | [] => [[c]]
      | r :: rs => (c :: r) :: rs

/-- `prop.rsplit(".")[-1]`: the part after the last dot. -/
def lastDotPart (prop : String) : String :=
  String.mk ((splitOnChar (Char.ofNat 46) prop.data).getLastD prop.data)

/-- `base_prop.rsplit("-")[0]`: the part before the first hyphen. -/
def firstDashPart (base_prop : String) : String :=
  String.mk ((splitOnChar (Char.ofNat 45) base_prop.data).headD base_prop.data)

/-- `add_property_edge_if_exists(graph, parent, prop, attrs)`. -/
def add_property_edge_if_exists (g : Graph) (cfg : Config) (parent prop : String)
    (attrs : Bag) : Graph :=
  let base_prop := lastDotPart prop
  let name_prop := firstDashPart base_prop
  if g.hasNode base_prop then g.addEdge parent base_prop attrs
  else
    let query := "name: " ++ name_prop
    let (nodes, g) := select_nodes g cfg query
    match nodes with
    | [n] => g.addEdge parent n.1 attrs
    | _ => g

/-- The `COMMAND_LOOKUP` table: command name to the list of owning entities,
in registration order. -/
abbrev CommandLookup := List (String × List String)

/-- `add_to_command_lookup(command, entity)`. -/
def add_to_command_lookup (command entity : String) (commands : CommandLookup) :
    CommandLookup :=
  match alookup commands command with
  | some owners => aset commands command (owners ++ [entity])
  | none => commands ++ [(command, [entity])]

/-- The table built by registering a sequence of `(command, entity)` pairs. -/
def buildCommandLookup (regs : List (String × String)) : CommandLookup :=
  regs.foldl (fun t p => add_to_command_lookup p.1 p.2 t) []

/-- `get_command_entity(command, entity)`.  (The Python code indexes
`commands[command][0]`; the table only ever stores non-empty owner lists, and
`headD` with the requesting entity as default is used to keep the function
total — see `commandLookup_owners_ne_nil`.) -/
def get_command_entity (command entity : String) (commands : CommandLookup) : String :=
  match alookup commands command with
  | some owners => if entity ∈ owners then entity else owners.headD entity
  | none => entity

/-- One printed item of `walk_tree`:
a node line (with the white highlight iff the node was already seen), an edge
line, or the `"... is an undefined reference!"` line. -/
inductive Entry where
  | node (data : Bag) (alreadySeen : Bool) (level : Nat)
  | edge (data : Bag) (level : Nat)
  | undefined (key : String) (level : Nat)
deriving DecidableEq, Repr

/-- Walk direction: `func=graph.successors` or `func=graph.predecessors`. -/
inductive Dir where
  | succs
  | preds
deriving DecidableEq, Repr

/-- `func(target)` for the chosen direction. -/
def neighbors (g : Graph) (dir : Dir) (target : String) : List String :=
  match dir with
  | Dir.succs => g.successors target
  | Dir.preds => g.predecessors target

/-- The edge data displayed for a neighbor (direction-dependent). -/
def walkEdgeData (g : Graph) (dir : Dir) (target node : String) : List Bag :=
  match dir with
  | Dir.succs => g.edgeDataBetween target node
  | Dir.preds => g.edgeDataBetween node target

/-- The body of `walk_tree`'s `for node in func(target):` loop, parameterized
by the recursive call `wt` so that the loop can be analyzed on its own.
The `seen` list is threaded through the recursion exactly as the shared
mutable Python list is; the result is `none` when `wt` runs out of fuel. -/
def walkLoopF (g : Graph) (cfg : Config) (dir : Dir)
    (wt : String → List String → Nat → Option (List Entry × List String)) :
    List String → String → List String → Nat → Option (List Entry × List String)
  | [], _, seen, _ => some ([], seen)
  | node :: rest, target, seen, level =>
    let node_data := g.nodeData node
    if typeIgnored cfg node_data then walkLoopF g cfg dir wt rest target seen level
    else
      let edge_data := walkEdgeData g dir target node
      if node_data.isEmpty then
        (walkLoopF g cfg dir wt rest target seen level).map
          (fun p => (Entry.undefined node level :: p.1, p.2))
      else
        let entry := Entry.node node_data (decide (node ∈ seen)) level
        let edgeEntries := edge_data.map (fun b => Entry.edge b level)
        if node ∉ seen ∧ (cfg.maxLevel = 0 ∨ cfg.maxLevel > level) then
          match wt node seen (level + 1) with
          | none => none
          | some (sub, seen1) =>
            match walkLoopF g cfg dir wt rest target seen1 level with
            | none => none
            | some (out, seen2) => some (entry :: edgeEntries ++ sub ++ out, seen2)
        else
          (walkLoopF g cfg dir wt rest target seen level).map
            (fun p => (entry :: edgeEntries ++ p.1, p.2))

/-- `walk_tree(graph, target, seen, level, func)` with an explicit fuel for
the recursion depth: `seen.append(target)` and then the neighbor loop.
`walkTree_terminates` shows fuel `unseenDataCount g (seen ++ [target]) + 1`
always suffices, which is the termination of the Python recursion. -/
def walk_tree (g : Graph) (cfg : Config) (dir : Dir) :
    Nat → String → List String → Nat → Option (List Entry × List String)
  | 0, _, _, _ => none
  | Nat.succ fuel, target, seen, level =>
      walkLoopF g cfg dir (fun t s l => walk_tree g cfg dir fuel t s l)
        (neighbors g dir target) target (seen ++ [target]) level

/-- The keys of the nodes that carry attribute data. -/
def dataKeys (g : Graph) : List String :=
  (g.nodes.filter (fun p => !p.2.isEmpty)).map Prod.fst

/-- Number of data-carrying nodes not yet in `seen`: the measure that shrinks
at every recursive call of `walk_tree`. -/
def unseenDataCount (g : Graph) (seen : List String) : Nat :=
  ((dataKeys g).filter (fun k => k ∉ seen)).length

/-- `missing_nodes(graph)`: the keys reported as having no data (the Python
function prints them; we return them in iteration order). -/
def missing_nodes (g : Graph) : List String :=
  g.nodeOrder.filter (fun node =>
    (alookup (g.nodeData node) "type").isNone
      && !(strStartsWith node "AttachToI")
      && g.inDegree node > 0)

/-- One topic step of `XMLParser.build_dict`: merge the attribute value (if
present) under the topic's field name — a fresh field is set, a string field
becomes a two-element list, a list field is appended to (the
`try append / except AttributeError / except KeyError` cascade). -/
def bdStep (attrib : List (String × String)) (result : Bag) (p : String × String) : Bag :=
  match alookup attrib p.1 with
  | none => result
  | some v =>
    match alookup result p.2 with
    | none => result ++ [(p.2, GVal.s v)]
    | some (GVal.s old) => aset result p.2 (GVal.lst [old, v])
    | some (GVal.lst vs) => aset result p.2 (GVal.lst (vs ++ [v]))

/-- `XMLParser.build_dict(attrib, topics)`: fold the topic steps over the
element's attributes.  `topics` is traversed in the order of the Python dict
literal. -/
def build_dict (attrib : List (String × String)) (topics : List (String × String)) : Bag :=
  topics.foldl (bdStep attrib) []

/-- The topics dictionary of `XMLParser._condition_dict`. -/
def condTopics : List (String × String) :=
  [("ResKey", "guid"), ("DisplayName", "name"), ("SelectedCondition", "condition"),
   ("ConditionPK", "condition"), ("x:Key", "name")]

/-- `XMLParser._condition_dict(node)`: `error` is the `KeyError` raised when
the element has no condition attribute at all, `ok none` is the suppressed
descriptor for the literal null sentinel `{x:Null}`, and `ok (some c)` is
the condition-link descriptor. -/
def condition_dict (attrib : List (String × String)) : Except Unit (Option Bag) :=
  let c_dict := build_dict attrib condTopics
  match alookup c_dict "condition" with
  | none => Except.error ()
  | some v =>
    if v = GVal.s "\x7bx:Null\x7d" then Except.ok none
    else
      Except.ok (some (aset (aset c_dict "type" (GVal.s "link"))
        "link_type" (GVal.s "conditional task")))

/-- The conditional-activity loop of `add_formflow_to_graph`: for every
yielded descriptor, `if condition:` drops the suppressed `None` values and
otherwise adds the edge `formflow.guid -> condition["condition"].lower()`
(`error` when the descriptor's condition is not a string, as `.lower()`
would raise). -/
def addConditionEdges (guid : String) : Graph → List (List (String × String)) →
    Except Unit Graph
  | g, [] => Except.ok g
  | g, attrib :: rest =>
    match condition_dict attrib with
    | Except.error e => Except.error e
    | Except.ok none => addConditionEdges guid g rest
    | Except.ok (some c) =>
      match alookup c "condition" with
      | some (GVal.s v) => addConditionEdges guid (g.addEdge guid (strLower v) c) rest
      | _ => Except.error ()

/-- `GlowObject.__getattr__` over a field mapping and a value dictionary:
follow the friendly mapping when `attr` is mapped, fall back to `attr`
itself, return `None` (here `none`) for a missing value, and lower-case the
result exactly when the requested attribute is `guid`. -/
def getattr (fields values : List (String × String)) (attr : String) : Option String :=
  let field := match alookup fields attr with
    | some f => f
    | none => attr
  match alookup values field with
  | none => none
  | some result => some (if attr = "guid" then strLower result else result)

/-- `special_command(query)` viewed as a dispatch predicate: whether the
query is one of the `$$...` directives (their side effects on the globals do
not matter for the dispatch order of `main`). -/
def special_command (query : String) : Bool :=
  strStartsWith query "$$max_level=" || strStartsWith query "$$ignore="
    || strStartsWith query "$$edges=" || strStartsWith query "$$minimal="
    || strStartsWith query "$$regen"

/-- Python `str.isdigit()` for ASCII input: non-empty and all digits. -/
def isDigitStr (s : String) : Bool :=
  !(s == "") && s.data.all Char.isDigit

/-- What one round of `main`'s interactive loop decides to do with a query. -/
inductive MainAction where
  | special
  | showNode (index : Nat)
  | reject
  | search
deriving DecidableEq, Repr

/-- The dispatch of `main`'s loop body: special command, node index,
invalid-regex rejection, or a `select_nodes` search, in that order. -/
def mainStep (compiles : String → Bool) (nodesCount : Nat) (query : String) : MainAction :=
  if special_command query then MainAction.special
  else if nodesCount ≠ 0 && isDigitStr query && query.toNat! < nodesCount then
    MainAction.showNode query.toNat!
  else if invalid_regex compiles query then MainAction.reject
  else MainAction.search

/-- A value inside the nested `metadata.data` YAML dictionary: a string or a
nested dictionary (the shapes `add_metadata_to_graph` inspects). -/
inductive NVal where
  | s (v : String)
  | d (m : List (String × String))
deriving DecidableEq, Repr

/-- The fields of an entity-metadata record as `add_metadata_to_graph` reads
them through `GlowObject`: `name` (after `fix_entity_name`), the `data`
dictionary, and `properties` as a list of
`(property name, collectionAggregate rule list)` — the only key of a
property's attribute dictionary the code reads is `collectionAggregate`,
whose value is a list of attribute dictionaries (an empty list models both a
falsy `data`/`properties` and an absent key, which the code treats alike). -/
structure MetaRec where
  name : String
  data : List (String × NVal)
  properties : List (String × List (List (String × String)))
deriving DecidableEq, Repr

/-- The aggregate-rule topics of `add_metadata_to_graph`. -/
def aggTopics : List (String × String) :=
  [("aggregateMode", "method"), ("name", "name"), ("propertyPath", "property"),
   ("conditionId", "condition")]

/-- The `link` dictionary attached to aggregate-rule edges. -/
def aggLinkDict : Bag :=
  [("type", GVal.s "link"), ("link_type", GVal.s "aggregate rule")]

/-- One `collectionAggregate` rule of `add_metadata_to_graph`'s property
loop: build `pc_dict`, derive the aggregate property node name, add the node
and its edges.  `error` models the `KeyError` on a missing `aggregateMode`
and the exceptions `.replace()` / `.lower()` raise on list values. -/
def addAggregateRule (entityName propertyName reference : String) (g : Graph)
    (prop : List (String × String)) : Except Unit Graph :=
  let pc := build_dict prop aggTopics
  match
    (match alookup pc "name" with
      | none => Except.ok ""
      | some (GVal.s v) => Except.ok (v.replace " " "")
      | some (GVal.lst _) => Except.error ()) with
  | Except.error e => Except.error e
  | Except.ok pcName =>
    match alookup pc "method" with
    | none => Except.error ()
    | some method =>
      let pc := aset pc "name" (GVal.s pcName)
      let pc := aset pc "type" (GVal.s "property")
      let pc := aset pc "calculated_property" (GVal.s ("Aggregate" ++ pyStr method))
      let pc := aset pc "entity" (GVal.s entityName)
      let pc := match alookup pc "property" with
        | some pty => aset pc "property" (GVal.s (propertyName ++ "." ++ pyStr pty))
        | none => pc
      let prop_name := pcName ++ "-" ++ entityName
      let g := g.addNode prop_name pc
      let g := g.addEdge reference prop_name aggLinkDict
      match alookup pc "condition" with
      | some (GVal.s c) => Except.ok (g.addEdge prop_name (strLower c) aggLinkDict)
      | some (GVal.lst _) => Except.error ()
      | none => Except.ok g

/-- The `collectionAggregate` loop over one property's rules. -/
def addAggList (entityName propertyName reference : String) :
    Graph → List (List (String × String)) → Except Unit Graph
  | g, [] => Except.ok g
  | g, prop :: rest =>
    match addAggregateRule entityName propertyName reference g prop with
    | Except.error e => Except.error e
    | Except.ok g => addAggList entityName propertyName reference g rest

/-- The `metadata.properties` loop of `add_metadata_to_graph`. -/
def addMetaProps (entityName : String) :
    Graph → List (String × List (List (String × String))) → Except Unit Graph
  | g, [] => Except.ok g
  | g, (name, aggs) :: rest =>
    let reference := name ++ "-" ++ entityName
    let g := g.addNode reference
      [("name", GVal.s name), ("type", GVal.s "property"), ("entity", GVal.s entityName)]
    match addAggList entityName name reference g aggs with
    | Except.error e => Except.error e
    | Except.ok g => addMetaProps entityName g rest

/-- `add_metadata_to_graph(graph, metadata, file_name)` (with `metadata.name`
already fixed up from the file name when it was missing, and the mapped raw
field names for `read_only` and `condition` passed in). -/
def add_metadata_to_graph (g : Graph) (m : MetaRec) (rdoFld conFld : String) :
    Except Unit Graph :=
  let g := g.addNode m.name
    [("name", GVal.s m.name), ("type", GVal.s "entity"), ("entity", GVal.s m.name)]
  let g := match alookup m.data rdoFld with
    | some (NVal.d sub) =>
      match alookup sub conFld with
      | some c => g.addEdge m.name (strLower c)
          [("type", GVal.s "link"), ("link_type", GVal.s "entity read only condition")]
      | none => g
    | _ => g
  match
    (match alookup m.data "icon" with
      | some (NVal.s i) => Except.ok (g.addEdge m.name (strLower i)
          [("type", GVal.s "link"), ("link_type", GVal.s "entity icon")])
      | some (NVal.d _) => Except.error ()
      | none => Except.ok g) with
  | Except.error e => Except.error e
  | Except.ok g => addMetaProps m.name g m.properties

/-- The topics dictionary of `add_index_to_graph`. -/
def indexTopics : List (String × String) :=
  [("name", "name"), ("propertyPath", "property"), ("keyField", "show_in_results"),
   ("trackingCommon", "trackable"), ("searchable", "searchable"),
   ("common", "quick_search"), ("where", "conditional")]

/-- The `i_dict` edge attributes of `add_index_to_graph`. -/
def indexLinkDict : Bag :=
  [("type", GVal.s "link"), ("link_type", GVal.s "index")]

/-- One field mapping of `add_index_to_graph`: build the index dictionary,
add the index node and the `entity -> index` edge, and conditionally the
property edge.  `error` models the `KeyError` on a missing `name` and the
`.upper()` call on a list value. -/
def addIndexField (cfg : Config) (entityName : String) (g : Graph)
    (field : List (String × String)) : Except Unit Graph :=
  let index := build_dict field indexTopics
  let index := aset index "entity" (GVal.s entityName)
  let index := aset index "type" (GVal.s "index")
  match alookup index "name" with
  | some (GVal.s nm) =>
    let index_name := strUpper nm
    let g := g.addNode index_name [("type", GVal.s "index"), ("name", GVal.s nm)]
    let g := g.addEdge entityName index_name index
    match alookup index "property" with
    | some pv => Except.ok (add_property_edge_if_exists g cfg index_name
        (pyStr pv ++ "-" ++ entityName) indexLinkDict)
    | none => Except.ok g
  | some (GVal.lst _) => Except.error ()
  | none => Except.error ()

/-- `add_index_to_graph(graph, entity, file_name)`: iterate the record's
field mappings (`entity.mappings`, empty when falsy or absent); the entity
name is the file's base name. -/
def add_index_to_graph (g : Graph) (cfg : Config)
    (mappings : List (List (String × String))) (entityName : String) :
    Except Unit Graph :=
  match mappings with
  | [] => Except.ok g
  | field :: rest =>
    match addIndexField cfg entityName g field with
    | Except.error e => Except.error e
    | Except.ok g => add_index_to_graph g cfg rest entityName

/-- The edge attributes of one business-test reference. -/
def businessTestEdge (refType name : String) : Bag :=
  [("type", GVal.s "link"), ("link_type", GVal.s "business test"),
   ("ref_type", GVal.s refType), ("name", GVal.s name)]

/-- One of the three reference loops of the test block of `create_graph`:
resolve each matched name through the lookup table (falling back to the raw
name) and add the labeled edge. -/
def addTestRefs (testName refType : String) (table : List (String × String)) :
    Graph → List String → Graph
  | g, [] => g
  | g, m :: rest =>
    addTestRefs testName refType table
      (g.addEdge testName ((alookup table m).getD m) (businessTestEdge refType m)) rest

/-- The test-record block of `create_graph`: add the test node and the
module/template/formflow reference edges (the matcher results and the three
lookup tables are passed in). -/
def add_test_to_graph (g : Graph) (testName : String)
    (modules templates formflows : List String)
    (moduleLookup formstepLookup formflowLookup : List (String × String)) : Graph :=
  let g := g.addNode testName [("name", GVal.s testName), ("type", GVal.s "test")]
  let g := addTestRefs testName "module" moduleLookup g modules
  let g := addTestRefs testName "template" formstepLookup g templates
  addTestRefs testName "formflow" formflowLookup g formflows

/-- Whether `_condition_dict` suppresses this element (yields the `None`
descriptor for the `{x:Null}` sentinel). -/
def isSuppressed (attrib : List (String × String)) : Bool :=
  match condition_dict attrib with
  | Except.ok none => true
  | _ => false

/-- The graph effect of one `get_node_data` call (the `counts` write). -/
def annStepG (gm : Graph) (node : String) : Graph :=
  (get_node_data gm node).2

/-- Python truthiness of an attribute value (the `if prop:` test): a
non-empty string or a non-empty list. -/
def pyTruthy : GVal → Bool
  | GVal.s v => !(v == "")
  | GVal.lst vs => !vs.isEmpty

/-- The `cap_link` edge attributes of the caption loop of
`add_template_to_graph`. -/
def capLinkDict : Bag :=
  [("type", GVal.s "link"), ("link_type", GVal.s "caption override")]

/-- The caption-override loop of `add_template_to_graph`: each caption
placeholder dictionary (a `properties_by_name("caption")` item) is updated
with the caption text as `name` and the `caption` kind, the caption node
`"<caption>-<property>"` is added (re-added via `dict.update` when the key
already exists; a missing property formats as Python's `"None"`), the
`caption override` edge is attached, and a truthy property value
additionally resolves the two property-fallback edges.  `entity` is the
template's entity as it is formatted into the property reference. -/
def addCaptionNodes (cfg : Config) (templateGuid entity : String) :
    Graph → List (String × Bag) → Graph
  | g, [] => g
  | g, (caption, cd) :: rest =>
    let cap_dict := updateBag cd [("name", GVal.s caption), ("type", GVal.s "caption")]
    let prop := alookup cap_dict "property"
    let cap_ref := caption ++ "-" ++ (match prop with | some v => pyStr v | none => "None")
    let g := g.addNode cap_ref cap_dict
    let g := g.addEdge templateGuid cap_ref capLinkDict
    match prop with
    | some v =>
      if pyTruthy v then
        let prop_ref := pyStr v ++ "-" ++ entity
        let g := add_property_edge_if_exists g cfg templateGuid prop_ref capLinkDict
        let g := add_property_edge_if_exists g cfg cap_ref prop_ref capLinkDict
        addCaptionNodes cfg templateGuid entity g rest
      else addCaptionNodes cfg templateGuid entity g rest
    | none => addCaptionNodes cfg templateGuid entity g rest

/-- The `type` (kind) discriminator stored at node `k`, if any. -/
def typeOf (g : Graph) (k : String) : Option GVal :=
  alookup (g.nodeData k) "type"

/-! ### Concrete example inputs -/

/-- The interactive session's startup configuration
(`MAX_LEVEL = 1`, `IGNORE_TYPES = []`, `EDGE_MATCH = False`). -/
def cfg0 : Config := ⟨1, [], false⟩

/-- Unbounded-depth walking configuration (`$$max_level=0`). -/
def cfgWalk : Config := ⟨0, [], false⟩

/-- Edge-matching configuration (`$$edges=True`). -/
def cfgEdges : Config := ⟨1, [], true⟩

/-- A graph with the 2-cycle `A -> B -> A`, both nodes carrying data. -/
def twoCycle : Graph :=
  ((((Graph.mk [] []).addNode "A" [("name", GVal.s "A"), ("type", GVal.s "thing")]).addNode
      "B" [("name", GVal.s "B"), ("type", GVal.s "thing")]).addEdge
      "A" "B" [("type", GVal.s "link"), ("link_type", GVal.s "ab")]).addEdge
      "B" "A" [("type", GVal.s "link"), ("link_type", GVal.s "ba")]

/-- A node `n` with two parallel outgoing edges: the first does not match the
query `"goalword"`, the second does. -/
def g3 : Graph :=
  (((Graph.mk [] []).addNode "n" [("name", GVal.s "n"), ("type", GVal.s "widget")]).addEdge
      "n" "m" [("type", GVal.s "link"), ("link_type", GVal.s "plain")]).addEdge
      "n" "m" [("type", GVal.s "link"), ("link_type", GVal.s "goalword")]

/-- A node `q` with data and two parallel incoming edges from `p`
(in-degree 2, one distinct predecessor). -/
def gC4 : Graph :=
  (((Graph.mk [] []).addNode "q" [("name", GVal.s "q"), ("type", GVal.s "t")]).addEdge
      "p" "q" [("type", GVal.s "link"), ("link_type", GVal.s "one")]).addEdge
      "p" "q" [("type", GVal.s "link"), ("link_type", GVal.s "two")]

/-- A graph whose only data node is named `"Xy"`: no node's `name` attribute
equals `"X"`, but the serialized data contains the substring `name: X`. -/
def g5 : Graph :=
  (Graph.mk [] []).addNode "n1" [("name", GVal.s "Xy"), ("type", GVal.s "property")]

/-- A graph with an edge into the data-less key `"AttachToIFoo"`. -/
def g6 : Graph :=
  (Graph.mk [] []).addEdge "X" "AttachToIFoo" [("type", GVal.s "link")]

/-- A graph with an edge into the data-less key `"Zork"`. -/
def gU : Graph :=
  (Graph.mk [] []).addEdge "X" "Zork" [("type", GVal.s "link")]

/-- A graph holding the entity node `"FOO"` (as `add_entity_to_graph` creates
it), about to collide with an index named `"Foo"`. -/
def g8 : Graph :=
  (Graph.mk [] []).addNode "FOO" [("name", GVal.s "FOO"), ("type", GVal.s "entity")]

/-- The result of processing the index record named `"Foo"` against `g8`:
the entity node's `type` has been overwritten with `"index"`. -/
def g8idx : Graph :=
  Graph.mk [("FOO", [("name", GVal.s "Foo"), ("type", GVal.s "index")])]
    [("FOO", "FOO", [("name", GVal.s "Foo"), ("entity", GVal.s "FOO"),
      ("type", GVal.s "index")])]

/-- The result of processing a fresh metadata record `"M"` against `g8`. -/
def gMeta : Graph :=
  Graph.mk [("FOO", [("name", GVal.s "FOO"), ("type", GVal.s "entity")]),
    ("M", [("name", GVal.s "M"), ("type", GVal.s "entity"), ("entity", GVal.s "M")])] []

/-! ### Association-list lemmas -/

lemma alookup_aset {α : Type} (l : List (String × α)) (f k : String) (v : α) :
    alookup (aset l f v) k = if f = k then some v else alookup l k := by
  induction l with
  | nil =>
    by_cases h : f = k <;> simp [aset, alookup, h]
  | cons p t ih =>
    obtain ⟨a, w⟩ := p
    by_cases ha : a = f
    · subst ha
      by_cases h2 : a = k
      · subst h2
        simp [aset, alookup]
      · simp [aset, alookup, h2]
    · by_cases h2 : a = k
      · subst h2
        have hf : ¬ f = a := fun h => ha h.symm
        simp [aset, alookup, ha, hf]
      · simp [aset, alookup, ha, h2, ih]

lemma alookup_append {α : Type} (l m : List (String × α)) (k : String) :
    alookup (l ++ m) k
      = match alookup l k with
        | some v => some v
        | none => alookup m k := by
  induction l with
  | nil => simp [alookup]
  | cons p t ih =>
    by_cases h : p.1 = k <;> simp [alookup, h, ih]

lemma alookup_eq_none_iff {α : Type} (l : List (String × α)) (k : String) :
    alookup l k = none ↔ k ∉ l.map Prod.fst := by
  induction l with
  | nil => simp [alookup]
  | cons p t ih =>
    by_cases h : p.1 = k
    · subst h
      simp [alookup]
    · have h' : ¬ k = p.1 := fun h2 => h h2.symm
      simp [alookup, h, h', ih]

lemma alookup_some_mem {α : Type} {l : List (String × α)} {k : String} {v : α}
    (h : alookup l k = some v) : (k, v) ∈ l := by
  induction l with
  | nil => simp [alookup] at h
  | cons p t ih =>
    obtain ⟨a, b⟩ := p
    by_cases h2 : a = k
    · subst h2
      simp [alookup] at h
      subst h
      exact List.mem_cons_self _ _
    · simp [alookup, h2] at h
      exact List.mem_cons_of_mem _ (ih h)

lemma alookup_map_update {α : Type} (l : List (String × α)) (n : String) (F : α → α)
    (k : String) :
    alookup (l.map (fun p => if p.1 = n then (p.1, F p.2) else p)) k
      = if k = n then (alookup l k).map F else alookup l k := by
  induction l with
  | nil => by_cases h : k = n <;> simp [alookup, h]
  | cons p t ih =>
    obtain ⟨a, w⟩ := p
    rw [List.map_cons]
    rw [show (if ((a, w) : String × α).1 = n then ((a, w).1, F (a, w).2) else (a, w))
        = if a = n then (a, F w) else (a, w) from rfl]
    by_cases hp : a = n
    · rw [if_pos hp]
      by_cases hk : a = k
      · subst hk
        simp [alookup, hp]
      · have h' : ¬ k = a := fun h2 => hk h2.symm
        simp [alookup, hk, h', ih]
    · rw [if_neg hp]
      by_cases hk : a = k
      · subst hk
        simp [alookup, hp]
      · simp [alookup, hk, ih]

/-- The value at `k` written last in `l` (what a sequence of dictionary
assignments leaves at `k`). -/
def uLast {α : Type} : List (String × α) → String → Option α
  | [], _ => none
  | p :: t, k =>
    match uLast t k with
    | some v => some v
    | none => if p.1 = k then some p.2 else none

/-- Dictionary keys are distinct (true for every CPython dictionary and for
everything `aset`/`build_dict` produce). -/
def NodupKeys {α : Type} (l : List (String × α)) : Prop :=
  (l.map Prod.fst).Nodup

lemma uLast_eq_alookup {α : Type} {l : List (String × α)} (h : NodupKeys l)
    (k : String) : uLast l k = alookup l k := by
  induction l with
  | nil => rfl
  | cons p t ih =>
    have hnd : NodupKeys t := (List.nodup_cons.mp h).2
    have hnm : p.1 ∉ t.map Prod.fst := (List.nodup_cons.mp h).1
    by_cases h2 : p.1 = k
    · have ht : alookup t k = none := by
        rw [alookup_eq_none_iff]
        exact h2 ▸ hnm
      rw [uLast, ih hnd, ht]
      simp [alookup, h2]
    · rw [uLast, ih hnd]
      cases hl : alookup t k with
      | some v => simp [alookup, h2, hl]
      | none => simp [alookup, h2, hl]

lemma alookup_updateBag {α : Type} (base other : List (String × α)) (k : String) :
    alookup (updateBag base other) k
      = match uLast other k with
        | some v => some v
        | none => alookup base k := by
  induction other generalizing base with
  | nil => rfl
  | cons p t ih =>
    show alookup (updateBag (aset base p.1 p.2) t) k = _
    rw [ih]
    cases hu : uLast t k with
    | some v => simp [uLast, hu]
    | none =>
      rw [alookup_aset]
      by_cases h : p.1 = k <;> simp [uLast, hu, h]

lemma aset_keys {α : Type} (l : List (String × α)) (k : String) (v : α) :
    (aset l k v).map Prod.fst
      = if k ∈ l.map Prod.fst then l.map Prod.fst else l.map Prod.fst ++ [k] := by
  induction l with
  | nil => simp [aset]
  | cons p t ih =>
    by_cases h : p.1 = k
    · simp [aset, h]
    · have : ¬ k = p.1 := fun h2 => h h2.symm
      by_cases h2 : k ∈ t.map Prod.fst <;> simp [aset, h, this, h2, ih]

lemma nodupKeys_aset {α : Type} {l : List (String × α)} (h : NodupKeys l)
    (k : String) (v : α) : NodupKeys (aset l k v) := by
  unfold NodupKeys at h ⊢
  rw [aset_keys]
  by_cases h2 : k ∈ l.map Prod.fst
  · simpa [h2] using h
  · simp only [h2, if_false]
    exact List.Nodup.append h (List.nodup_singleton k) (by simpa using h2)

lemma aset_aset_same {α : Type} (l : List (String × α)) (k : String) (v : α) :
    aset (aset l k v) k v = aset l k v := by
  induction l with
  | nil => simp [aset]
  | cons p t ih =>
    by_cases h : p.1 = k <;> simp [aset, h, ih]

/-! ### C2: command lookup resolution -/

/-- The owners registered for `cmd`, in registration order. -/
def ownersOf (regs : List (String × String)) (cmd : String) : List String :=
  (regs.filter (fun p => decide (p.1 = cmd))).map Prod.snd

lemma alookup_buildCommandLookup_aux (regs : List (String × String))
    (t : CommandLookup) (cmd : String) :
    alookup (regs.foldl (fun t p => add_to_command_lookup p.1 p.2 t) t) cmd
      = match alookup t cmd with
        | some os => some (os ++ ownersOf regs cmd)
        | none => if ownersOf regs cmd = [] then none else some (ownersOf regs cmd) := by
  induction regs generalizing t with
  | nil =>
    cases h : alookup t cmd <;> simp [ownersOf, h]
  | cons p rest ih =>
    obtain ⟨c, e⟩ := p
    show alookup (rest.foldl _ (add_to_command_lookup c e t)) cmd = _
    rw [ih]
    by_cases hc : c = cmd
    · subst hc
      cases h : alookup t c with
      | some os =>
        simp only [add_to_command_lookup, h]
        rw [alookup_aset]
        simp [ownersOf, h]
      | none =>
        simp only [add_to_command_lookup, h]
        rw [alookup_append]
        simp [alookup, h, ownersOf]
    · have hown : ownersOf ((c, e) :: rest) cmd = ownersOf rest cmd := by
        simp [ownersOf, hc]
      rw [hown]
      cases h : alookup t c with
      | some os =>
        simp only [add_to_command_lookup, h]
        rw [alookup_aset]
        simp [hc]
      | none =>
        simp only [add_to_command_lookup, h]
        rw [alookup_append]
        cases h2 : alookup t cmd <;> simp [alookup, hc, h2]

lemma alookup_buildCommandLookup (regs : List (String × String)) (cmd : String) :
    alookup (buildCommandLookup regs) cmd
      = if ownersOf regs cmd = [] then none else some (ownersOf regs cmd) := by
  unfold buildCommandLookup
  rw [alookup_buildCommandLookup_aux]
  rfl

/-- C2 — For every table built with `add_to_command_lookup`,
`get_command_entity` returns the requesting entity unchanged when that
entity is among the registered owners of the command name; otherwise, when
the name is registered, it returns the first-registered owner; and when the
name was never registered it returns the requesting entity verbatim.  In
particular `"Approve"` registered first by `"Invoice"` and then referenced
by `"Receipt"` resolves to `"Invoice"`. -/
theorem get_command_entity_resolution :
    (∀ regs cmd ent, ent ∈ ownersOf regs cmd →
        get_command_entity cmd ent (buildCommandLookup regs) = ent)
    ∧ (∀ regs cmd ent o os, ownersOf regs cmd = o :: os → ent ∉ ownersOf regs cmd →
        get_command_entity cmd ent (buildCommandLookup regs) = o)
    ∧ (∀ regs cmd ent, ownersOf regs cmd = [] →
        get_command_entity cmd ent (buildCommandLookup regs) = ent)
    ∧ get_command_entity "Approve" "Receipt"
        (buildCommandLookup [("Approve", "Invoice")]) = "Invoice" := by
  refine ⟨?_, ?_, ?_, ?_⟩
  · intro regs cmd ent hmem
    have hne : ownersOf regs cmd ≠ [] := by
      intro h
      rw [h] at hmem
      exact absurd hmem (List.not_mem_nil ent)
    unfold get_command_entity
    rw [alookup_buildCommandLookup, if_neg hne]
    show (if ent ∈ ownersOf regs cmd then ent else (ownersOf regs cmd).headD ent) = ent
    rw [if_pos hmem]
  · intro regs cmd ent o os heq hnmem
    have hne : ownersOf regs cmd ≠ [] := by simp [heq]
    unfold get_command_entity
    rw [alookup_buildCommandLookup, if_neg hne]
    show (if ent ∈ ownersOf regs cmd then ent else (ownersOf regs cmd).headD ent) = o
    rw [if_neg hnmem, heq]
    rfl
  · intro regs cmd ent h
    unfold get_command_entity
    rw [alookup_buildCommandLookup, if_pos h]
  · rfl

/-- C2 witness: the concrete `"Approve"`/`"Invoice"`/`"Receipt"` resolution,
obtained from `get_command_entity_resolution`. -/
theorem get_command_entity_resolution_witness :
    get_command_entity "Approve" "Receipt"
      (buildCommandLookup [("Approve", "Invoice")]) = "Invoice" :=
  get_command_entity_resolution.2.1 [("Approve", "Invoice")] "Approve" "Receipt"
    "Invoice" [] (by decide) (by decide)

/-! ### C9: GlowObject attribute access -/

/-- C9 — `GlowObject.__getattr__` follows the friendly-name mapping, passes
unmapped attribute names through unchanged, yields `None` (an explicit
absent value, not an error) for attributes missing from the record, and
lower-cases the result exactly for the `guid` attribute. -/
theorem getattr_mapping_behavior :
    (∀ fields values attr f, alookup fields attr = some f →
        getattr fields values attr
          = (alookup values f).map (fun v => if attr = "guid" then strLower v else v))
    ∧ (∀ fields values attr, alookup fields attr = none →
        getattr fields values attr
          = (alookup values attr).map (fun v => if attr = "guid" then strLower v else v))
    ∧ (∀ fields values attr,
        alookup values ((alookup fields attr).getD attr) = none →
        getattr fields values attr = none)
    ∧ (∀ fields values v,
        alookup values ((alookup fields "guid").getD "guid") = some v →
        getattr fields values "guid" = some (strLower v)) := by
  refine ⟨?_, ?_, ?_, ?_⟩
  · intro fields values attr f h
    simp only [getattr, h]
    cases hv : alookup values f <;> simp [hv]
  · intro fields values attr h
    simp only [getattr, h]
    cases hv : alookup values attr <;> simp [hv]
  · intro fields values attr h
    cases hf : alookup fields attr with
    | some f =>
      rw [hf] at h
      simp only [Option.getD] at h
      simp [getattr, hf, h]
    | none =>
      rw [hf] at h
      simp only [Option.getD] at h
      simp [getattr, hf, h]
  · intro fields values v h
    cases hf : alookup fields "guid" with
    | some f =>
      rw [hf] at h
      simp only [Option.getD] at h
      simp [getattr, hf, h]
    | none =>
      rw [hf] at h
      simp only [Option.getD] at h
      simp [getattr, hf, h]

/-- C9 witness: a mapped `guid` attribute is found through the mapping and
lower-cased; instances of `getattr_mapping_behavior`. -/
theorem getattr_mapping_behavior_witness :
    getattr [("guid", "VM_PK")] [("VM_PK", "ABC-DEF")] "guid" = some "abc-def"
      ∧ getattr [] [("foo", "Bar")] "foo" = some "Bar"
      ∧ getattr [("name", "VM_Name")] [] "name" = none :=
  ⟨by rw [getattr_mapping_behavior.1 [("guid", "VM_PK")] [("VM_PK", "ABC-DEF")]
      "guid" "VM_PK" (by decide)]; decide,
   by rw [getattr_mapping_behavior.2.1 [] [("foo", "Bar")] "foo" (by decide)]; decide,
   getattr_mapping_behavior.2.2.1 [("name", "VM_Name")] [] "name" (by decide)⟩

/-! ### C10: empty query rejection -/

/-- C10 — `invalid_regex` classifies the empty string as invalid for every
compile oracle (in particular for one on which the empty string compiles),
so `main`'s loop dispatches an empty query to the rejection branch before
`select_nodes` is ever reached. -/
theorem empty_query_rejected :
    ∀ (compiles : String → Bool) (nodesCount : Nat),
      invalid_regex compiles "" = true
        ∧ invalid_regex (fun _ => true) "" = true
        ∧ mainStep compiles nodesCount "" = MainAction.reject := by
  intro compiles nodesCount
  refine ⟨rfl, rfl, ?_⟩
  have hs : special_command "" = false := by decide
  have hd : isDigitStr "" = false := by decide
  simp [mainStep, hs, hd, invalid_regex]

/-! ### C4: the counts annotation -/

lemma aset_isEmpty {α : Type} (l : List (String × α)) (k : String) (v : α) :
    (aset l k v).isEmpty = false := by
  cases l with
  | nil => rfl
  | cons p t =>
    unfold aset
    split <;> rfl

lemma countsVal_congr {g1 g2 : Graph} (h : g1.edges = g2.edges) (k : String) :
    countsVal g1 k = countsVal g2 k := by
  unfold countsVal Graph.predecessors Graph.successors
  rw [h]

lemma annB_congr {g1 g2 : Graph} (h : g1.edges = g2.edges) (k : String) (b : Bag) :
    annB g1 k b = annB g2 k b := by
  unfold annB
  rw [countsVal_congr h]

lemma annB_idem (g : Graph) (k : String) (b : Bag) :
    annB g k (annB g k b) = annB g k b := by
  unfold annB
  by_cases h : b.isEmpty
  · simp [h]
  · simp [h, aset_isEmpty, aset_aset_same]

lemma annB_nil (g : Graph) (k : String) : annB g k [] = [] := rfl

lemma annStepG_edges (gm : Graph) (node : String) :
    (annStepG gm node).edges = gm.edges := by
  unfold annStepG get_node_data
  by_cases h : (gm.nodeData node).isEmpty <;> simp [h, Graph.setNodeData]

lemma map_fst_set {α : Type} (l : List (String × α)) (n : String) (b : α) :
    (l.map (fun p => if p.1 = n then (p.1, b) else p)).map Prod.fst = l.map Prod.fst := by
  rw [List.map_map]
  apply List.map_congr_left
  intro p _
  show (if p.1 = n then (p.1, b) else p).1 = p.1
  split <;> rfl

lemma annStepG_nodeOrder (gm : Graph) (node : String) :
    (annStepG gm node).nodeOrder = gm.nodeOrder := by
  unfold annStepG get_node_data
  by_cases h : (gm.nodeData node).isEmpty
  · simp [h]
  · simp only [h, Bool.false_eq_true, if_false]
    show (gm.setNodeData node _).nodeOrder = gm.nodeOrder
    unfold Graph.setNodeData Graph.nodeOrder
    exact map_fst_set _ _ _

lemma nodeData_setNodeData (gm : Graph) (node : String) (b : Bag) (k : String) :
    (gm.setNodeData node b).nodeData k
      = if k = node then (if (alookup gm.nodes k).isSome then b else []) else gm.nodeData k := by
  unfold Graph.setNodeData Graph.nodeData
  show (alookup (gm.nodes.map (fun p => if p.1 = node then (p.1, (fun _ => b) p.2) else p)) k).getD []
      = _
  rw [alookup_map_update gm.nodes node (fun _ => b) k]
  by_cases h : k = node
  · cases hl : alookup gm.nodes k <;> simp [h, hl]
  · simp [h]

lemma annStepG_nodeData (gm : Graph) (node k : String) :
    (annStepG gm node).nodeData k
      = if k = node then annB gm node (gm.nodeData node) else gm.nodeData k := by
  unfold annStepG get_node_data
  by_cases hemp : (gm.nodeData node).isEmpty
  · simp only [hemp, if_true]
    by_cases h : k = node
    · subst h
      simp [annB, hemp]
    · simp [h]
  · simp only [hemp, if_false]
    show (gm.setNodeData node (aset (gm.nodeData node) "counts" (countsVal gm node))).nodeData k = _
    rw [nodeData_setNodeData]
    by_cases h : k = node
    · subst h
      have hsome : (alookup gm.nodes k).isSome := by
        cases hl : alookup gm.nodes k with
        | none =>
          exfalso
          apply hemp
          unfold Graph.nodeData
          rw [hl]
          rfl
        | some b => rfl
      simp [hsome, annB, hemp]
    · simp [h]

lemma selectStep_graph (cfg : Config) (q : String) (ns : List (String × Bag))
    (gm : Graph) (node : String) :
    (selectStep cfg q (ns, gm) node).2 = annStepG gm node := by
  unfold selectStep annStepG
  cases hg : get_node_data gm node with
  | mk nd g2 =>
    simp only [hg]
    split
    · rfl
    · split
      · rfl
      · split
        · split
          · rfl
          · split <;> rfl
        · rfl

lemma select_fold_graph (cfg : Config) (q : String) :
    ∀ (l : List String) (ns : List (String × Bag)) (gm : Graph),
      (l.foldl (selectStep cfg q) (ns, gm)).2 = l.foldl annStepG gm := by
  intro l
  induction l with
  | nil => intro ns gm; rfl
  | cons a t ih =>
    intro ns gm
    show (t.foldl (selectStep cfg q) (selectStep cfg q (ns, gm) a)).2
        = t.foldl annStepG (annStepG gm a)
    have h : selectStep cfg q (ns, gm) a
        = ((selectStep cfg q (ns, gm) a).1, annStepG gm a) := by
      rw [← selectStep_graph cfg q ns gm a]
    rw [h, ih]

lemma foldAnn_main (g : Graph) :
    ∀ (l : List String) (gm : Graph), gm.edges = g.edges →
      (l.foldl annStepG gm).edges = g.edges
      ∧ (l.foldl annStepG gm).nodeOrder = gm.nodeOrder
      ∧ (∀ k, (l.foldl annStepG gm).nodeData k
          = if k ∈ l then annB g k (gm.nodeData k) else gm.nodeData k) := by
  intro l
  induction l with
  | nil =>
    intro gm hedges
    exact ⟨hedges, rfl, fun k => by simp⟩
  | cons a t ih =>
    intro gm hedges
    have hstep_edges : (annStepG gm a).edges = g.edges := by
      rw [annStepG_edges, hedges]
    obtain ⟨he, ho, hd⟩ := ih (annStepG gm a) hstep_edges
    refine ⟨he, ho.trans (annStepG_nodeOrder gm a), ?_⟩
    intro k
    show (t.foldl annStepG (annStepG gm a)).nodeData k = _
    rw [hd k, annStepG_nodeData gm a k]
    have hcong : annB gm a (gm.nodeData a) = annB g a (gm.nodeData a) :=
      annB_congr hedges a _
    by_cases hka : k = a
    · subst hka
      by_cases hkt : k ∈ t
      · simp [hkt, hcong, annB_idem]
      · simp [hkt, hcong]
    · by_cases hkt : k ∈ t
      · simp [hka, hkt]
      · simp [hka, hkt]

lemma select_nodes_edges (g : Graph) (cfg : Config) (q : String) :
    ((select_nodes g cfg q).2).edges = g.edges := by
  have hfold : (select_nodes g cfg q).2 = g.nodeOrder.foldl annStepG g :=
    select_fold_graph cfg q g.nodeOrder [] g
  rw [hfold]
  exact (foldAnn_main g g.nodeOrder g rfl).1

lemma select_nodes_nodeOrder (g : Graph) (cfg : Config) (q : String) :
    ((select_nodes g cfg q).2).nodeOrder = g.nodeOrder := by
  have hfold : (select_nodes g cfg q).2 = g.nodeOrder.foldl annStepG g :=
    select_fold_graph cfg q g.nodeOrder [] g
  rw [hfold]
  exact (foldAnn_main g g.nodeOrder g rfl).2.1

lemma select_nodes_nodeData (g : Graph) (cfg : Config) (q : String) (k : String) :
    ((select_nodes g cfg q).2).nodeData k = annB g k (g.nodeData k) := by
  have hfold : (select_nodes g cfg q).2 = g.nodeOrder.foldl annStepG g :=
    select_fold_graph cfg q g.nodeOrder [] g
  rw [hfold, (foldAnn_main g g.nodeOrder g rfl).2.2 k]
  by_cases hmem : k ∈ g.nodeOrder
  · simp [hmem]
  · have hnone : alookup g.nodes k = none := (alookup_eq_none_iff g.nodes k).mpr hmem
    have hnil : g.nodeData k = [] := by
      unfold Graph.nodeData
      rw [hnone]
      rfl
    simp [hmem, hnil, annB_nil]

/-- C4 counterexample — the claim as stated is false: the `counts` field is
written into the node's stored attribute bag (it persists after the
selection call), later calls observe it (here: a traversal's output
changes), and its value counts distinct predecessor/successor nodes, not
the in-degree (node `q` has in-degree 2 but `counts = "1<0"`). -/
theorem select_nodes_counts_persist_counterexample :
    gC4.inDegree "q" = 2
      ∧ alookup (gC4.nodeData "q") "counts" = none
      ∧ alookup (((select_nodes gC4 cfg0 "zzz").2).nodeData "q") "counts"
          = some (GVal.s "1<0")
      ∧ walk_tree ((select_nodes gC4 cfg0 "zzz").2) cfgWalk Dir.succs 2 "p" [] 1
          ≠ walk_tree gC4 cfgWalk Dir.succs 2 "p" [] 1 := by decide

/-- C4 (amended) — the `counts` annotation written during a selection call
is persistent, not transient: a call to `select_nodes` leaves the edge list
and the node iteration order unchanged, but stores
`counts = "<#predecessors><<#successors>"` into the attribute bag of every
node that has data (nodes without data stay empty), where the annotation of
the whole pass is `annB`; subsequent calls observe the stored value. -/
theorem select_nodes_counts_annotation :
    ∀ (g : Graph) (cfg : Config) (q : String),
      ((select_nodes g cfg q).2).edges = g.edges
      ∧ ((select_nodes g cfg q).2).nodeOrder = g.nodeOrder
      ∧ (∀ k, ((select_nodes g cfg q).2).nodeData k = annB g k (g.nodeData k)) := by
  intro g cfg q
  exact ⟨select_nodes_edges g cfg q, select_nodes_nodeOrder g cfg q,
    fun k => select_nodes_nodeData g cfg q k⟩

/-! ### C5: property-edge fallback resolution -/

/-- C5 counterexample — the claim as stated is false: no node of the graph
has a `name` attribute equal to the bare name `"X"` (the only node is named
`"Xy"`), the bare key `"X-E"` is not a node, and the claim therefore demands
that no edge be added; but the fallback matches the query `"name: X"` as a
case-insensitive substring of the serialized node data, `"Xy"` matches, and
exactly one edge is added. -/
theorem add_property_edge_name_match_counterexample :
    (g5.nodes.filter (fun p => decide (alookup p.2 "name" = some (GVal.s "X")))).length = 0
      ∧ g5.hasNode "X-E" = false
      ∧ (add_property_edge_if_exists g5 cfg0 "p" "X-E" [("type", GVal.s "link")]).edges
          = [("p", "n1", [("type", GVal.s "link")])] := by decide

/-- C5 (amended) — `add_property_edge_if_exists` strips the dotted-path
prefix and checks the part after the last dot as the bare key; if that bare
key is a node, exactly the one edge to it is appended; otherwise it selects
the nodes whose serialized data matches the case-insensitive pattern
`"name: <bare name portion>"` as a substring (so a name merely extending the
bare name also matches), appends exactly one edge to the single selected
node when exactly one matches, and appends no edge at all when zero or
two-or-more nodes match. -/
theorem add_property_edge_resolution :
    ∀ (g : Graph) (cfg : Config) (parent prop : String) (attrs : Bag),
      (g.hasNode (lastDotPart prop) = true →
        (add_property_edge_if_exists g cfg parent prop attrs).edges
          = g.edges ++ [(parent, lastDotPart prop, attrs)])
      ∧ (g.hasNode (lastDotPart prop) = false →
          ∀ n nd,
            (select_nodes g cfg ("name: " ++ firstDashPart (lastDotPart prop))).1
              = [(n, nd)] →
            (add_property_edge_if_exists g cfg parent prop attrs).edges
              = g.edges ++ [(parent, n, attrs)])
      ∧ (g.hasNode (lastDotPart prop) = false →
          (select_nodes g cfg ("name: " ++ firstDashPart (lastDotPart prop))).1.length ≠ 1 →
          (add_property_edge_if_exists g cfg parent prop attrs).edges = g.edges) := by
  intro g cfg parent prop attrs
  refine ⟨?_, ?_, ?_⟩
  · intro h
    unfold add_property_edge_if_exists
    simp [h, Graph.addEdge]
  · intro h n nd hsel
    unfold add_property_edge_if_exists
    simp only [h, Bool.false_eq_true, if_false]
    have hg2 : ((select_nodes g cfg ("name: " ++ firstDashPart (lastDotPart prop))).2).edges
        = g.edges := select_nodes_edges g cfg _
    cases hs : select_nodes g cfg ("name: " ++ firstDashPart (lastDotPart prop)) with
    | mk ns g2 =>
      rw [hs] at hsel hg2
      simp only at hsel hg2
      subst hsel
      simp [Graph.addEdge, hg2]
  · intro h hlen
    unfold add_property_edge_if_exists
    simp only [h, Bool.false_eq_true, if_false]
    have hg2 : ((select_nodes g cfg ("name: " ++ firstDashPart (lastDotPart prop))).2).edges
        = g.edges := select_nodes_edges g cfg _
    cases hs : select_nodes g cfg ("name: " ++ firstDashPart (lastDotPart prop)) with
    | mk ns g2 =>
      rw [hs] at hlen hg2
      simp only at hlen hg2
      match ns, hlen with
      | [], _ => exact hg2
      | [x], hlen => exact absurd rfl hlen
      | x :: y :: t, _ => exact hg2

/-- C5 witness: instances of `add_property_edge_resolution` — the bare-key
case appends the one edge, and a two-match fallback appends none. -/
theorem add_property_edge_resolution_witness :
    (add_property_edge_if_exists g5 cfg0 "par" "n1" [("type", GVal.s "link")]).edges
        = g5.edges ++ [("par", "n1", [("type", GVal.s "link")])]
      ∧ (add_property_edge_if_exists gC4 cfg0 "par" "nosuch" [("type", GVal.s "link")]).edges
          = gC4.edges :=
  ⟨(add_property_edge_resolution g5 cfg0 "par" "n1" [("type", GVal.s "link")]).1
      (by decide),
   (add_property_edge_resolution gC4 cfg0 "par" "nosuch" [("type", GVal.s "link")]).2.2
      (by decide) (by decide)⟩

/-! ### C1: traversal termination and cycle safety -/

lemma filter_len_mono {α : Type} (l : List α) (p q : α → Bool)
    (h : ∀ a ∈ l, p a = true → q a = true) :
    (l.filter p).length ≤ (l.filter q).length := by
  induction l with
  | nil => simp
  | cons a t ih =>
    have ht : ∀ b ∈ t, p b = true → q b = true :=
      fun b hb => h b (List.mem_cons_of_mem a hb)
    by_cases hp : p a = true
    · have hq := h a (List.mem_cons_self a t) hp
      simp only [List.filter_cons, hp, hq, if_true, List.length_cons]
      exact Nat.succ_le_succ (ih ht)
    · have hp' : p a = false := by
        cases hpa : p a
        · rfl
        · exact absurd hpa hp
      by_cases hq : q a = true
      · simp only [List.filter_cons, hp', hq, Bool.false_eq_true, if_false, if_true,
          List.length_cons]
        exact Nat.le_succ_of_le (ih ht)
      · have hq' : q a = false := by
          cases hqa : q a
          · rfl
          · exact absurd hqa hq
        simp only [List.filter_cons, hp', hq', Bool.false_eq_true, if_false]
        exact ih ht

lemma unseen_anti (g : Graph) {s s' : List String} (h : s ⊆ s') :
    unseenDataCount g s' ≤ unseenDataCount g s := by
  unfold unseenDataCount
  apply filter_len_mono
  intro a _ ha
  simp only [decide_eq_true_eq] at ha ⊢
  exact fun hmem => ha (h hmem)

lemma filter_unseen_strict {s : List String} (node : String) :
    ∀ (l : List String), node ∈ l → node ∉ s →
      (l.filter (fun k => k ∉ s ++ [node])).length
        < (l.filter (fun k => k ∉ s)).length := by
  intro l
  induction l with
  | nil =>
    intro h
    exact absurd h (List.not_mem_nil node)
  | cons a t ih =>
    intro hmem hns
    by_cases ha : a = node
    · subst ha
      have hd1 : (decide (a ∉ s ++ [a])) = false := by simp
      have hd2 : (decide (a ∉ s)) = true := by simp [hns]
      simp only [List.filter_cons, hd1, hd2, Bool.false_eq_true, if_false, if_true,
        List.length_cons]
      have hle : (t.filter (fun k => k ∉ s ++ [a])).length
          ≤ (t.filter (fun k => k ∉ s)).length := by
        apply filter_len_mono
        intro b _ hb
        simp only [decide_eq_true_eq, List.mem_append, List.mem_singleton] at hb ⊢
        exact fun hbs => hb (Or.inl hbs)
      exact Nat.lt_succ_of_le hle
    · have hmem' : node ∈ t := by
        cases List.mem_cons.mp hmem with
        | inl h => exact absurd h.symm ha
        | inr h => exact h
      have hiff : (decide (a ∉ s ++ [node])) = (decide (a ∉ s)) := by
        by_cases has : a ∈ s <;> simp [has, ha]
      by_cases has : a ∈ s
      · have hd : (decide (a ∉ s)) = false := by simp [has]
        simp only [List.filter_cons, hiff, hd, Bool.false_eq_true, if_false]
        exact ih hmem' hns
      · have hd : (decide (a ∉ s)) = true := by simp [has]
        simp only [List.filter_cons, hiff, hd, if_true, List.length_cons]
        exact Nat.succ_lt_succ (ih hmem' hns)

lemma unseen_strict {g : Graph} {s : List String} {node : String}
    (hmem : node ∈ dataKeys g) (hns : node ∉ s) :
    unseenDataCount g (s ++ [node]) < unseenDataCount g s :=
  filter_unseen_strict node (dataKeys g) hmem hns

lemma mem_dataKeys {g : Graph} {node : String}
    (h : (g.nodeData node).isEmpty = false) : node ∈ dataKeys g := by
  unfold Graph.nodeData at h
  cases hl : alookup g.nodes node with
  | none =>
    rw [hl] at h
    simp at h
  | some b =>
    rw [hl] at h
    simp only [Option.getD_some] at h
    have hb : (node, b) ∈ g.nodes := alookup_some_mem hl
    unfold dataKeys
    apply List.mem_map.mpr
    refine ⟨(node, b), ?_, rfl⟩
    apply List.mem_filter.mpr
    exact ⟨hb, by simp [h]⟩

lemma isSome_map {α β : Type} (f : α → β) (o : Option α) :
    (o.map f).isSome = o.isSome := by
  cases o <;> rfl

lemma walkLoopF_seen_prefix (g : Graph) (cfg : Config) (dir : Dir)
    (wt : String → List String → Nat → Option (List Entry × List String))
    (hw : ∀ t s l out s', wt t s l = some (out, s') → s <+: s') :
    ∀ (lst : List String) (target : String) (seen : List String) (level : Nat)
      (out : List Entry) (seen' : List String),
      walkLoopF g cfg dir wt lst target seen level = some (out, seen') →
      seen <+: seen' := by
  intro lst
  induction lst with
  | nil =>
    intro target seen level out seen' h
    simp only [walkLoopF, Option.some.injEq, Prod.mk.injEq] at h
    rw [← h.2]
  | cons node rest ih =>
    intro target seen level out seen' h
    simp only [walkLoopF] at h
    by_cases hig : typeIgnored cfg (g.nodeData node) = true
    · rw [if_pos hig] at h
      exact ih target seen level out seen' h
    · rw [if_neg hig] at h
      by_cases hemp : (g.nodeData node).isEmpty = true
      · rw [if_pos hemp] at h
        cases hrec : walkLoopF g cfg dir wt rest target seen level with
        | none => simp [hrec] at h
        | some p =>
          obtain ⟨out2, seen2⟩ := p
          simp only [hrec, Option.map_some', Option.some.injEq, Prod.mk.injEq] at h
          rw [← h.2]
          exact ih target seen level out2 seen2 hrec
      · rw [if_neg hemp] at h
        by_cases hc : node ∉ seen ∧ (cfg.maxLevel = 0 ∨ cfg.maxLevel > level)
        · rw [if_pos hc] at h
          cases hwt : wt node seen (level + 1) with
          | none => simp [hwt] at h
          | some p =>
            obtain ⟨sub, seen1⟩ := p
            simp only [hwt] at h
            cases hloop : walkLoopF g cfg dir wt rest target seen1 level with
            | none => simp [hloop] at h
            | some p2 =>
              obtain ⟨out2, seen2⟩ := p2
              simp only [hloop, Option.some.injEq, Prod.mk.injEq] at h
              rw [← h.2]
              exact (hw node seen (level + 1) sub seen1 hwt).trans
                (ih target seen1 level out2 seen2 hloop)
        · rw [if_neg hc] at h
          cases hrec : walkLoopF g cfg dir wt rest target seen level with
          | none => simp [hrec] at h
          | some p =>
            obtain ⟨out2, seen2⟩ := p
            simp only [hrec, Option.map_some', Option.some.injEq, Prod.mk.injEq] at h
            rw [← h.2]
            exact ih target seen level out2 seen2 hrec

lemma walk_tree_seen_prefix (g : Graph) (cfg : Config) (dir : Dir) :
    ∀ (fuel : Nat) (target : String) (seen : List String) (level : Nat)
      (out : List Entry) (seen' : List String),
      walk_tree g cfg dir fuel target seen level = some (out, seen') →
      seen <+: seen' := by
  intro fuel
  induction fuel with
  | zero =>
    intro target seen level out seen' h
    simp [walk_tree] at h
  | succ f ih =>
    intro target seen level out seen' h
    simp only [walk_tree] at h
    have hpre : (seen ++ [target]) <+: seen' :=
      walkLoopF_seen_prefix g cfg dir _
        (fun t s l o s' hh => ih t s l o s' hh)
        (neighbors g dir target) target (seen ++ [target]) level out seen' h
    exact (List.prefix_append seen [target]).trans hpre

lemma walkLoopF_isSome (g : Graph) (cfg : Config) (dir : Dir)
    (wt : String → List String → Nat → Option (List Entry × List String)) (F : Nat)
    (hw_pref : ∀ t s l out s', wt t s l = some (out, s') → s <+: s')
    (hw_some : ∀ t s l, unseenDataCount g (s ++ [t]) < F → (wt t s l).isSome) :
    ∀ (lst : List String) (target : String) (seen : List String) (level : Nat),
      unseenDataCount g seen ≤ F →
      (walkLoopF g cfg dir wt lst target seen level).isSome := by
  intro lst
  induction lst with
  | nil =>
    intro target seen level _
    simp [walkLoopF]
  | cons node rest ih =>
    intro target seen level hseen
    simp only [walkLoopF]
    by_cases hig : typeIgnored cfg (g.nodeData node) = true
    · rw [if_pos hig]
      exact ih target seen level hseen
    · rw [if_neg hig]
      by_cases hemp : (g.nodeData node).isEmpty = true
      · rw [if_pos hemp]
        rw [isSome_map]
        exact ih target seen level hseen
      · rw [if_neg hemp]
        by_cases hc : node ∉ seen ∧ (cfg.maxLevel = 0 ∨ cfg.maxLevel > level)
        · rw [if_pos hc]
          have hdk : node ∈ dataKeys g :=
            mem_dataKeys (by cases hx : (g.nodeData node).isEmpty
                             · rfl
                             · exact absurd hx hemp)
          have hlt : unseenDataCount g (seen ++ [node]) < F :=
            Nat.lt_of_lt_of_le (unseen_strict hdk hc.1) hseen
          have hwt := hw_some node seen (level + 1) hlt
          cases hwtv : wt node seen (level + 1) with
          | none => rw [hwtv] at hwt; simp at hwt
          | some p =>
            obtain ⟨sub, seen1⟩ := p
            have hpre : seen <+: seen1 :=
              hw_pref node seen (level + 1) sub seen1 hwtv
            have hseen1 : unseenDataCount g seen1 ≤ F :=
              Nat.le_trans (unseen_anti g hpre.subset) hseen
            have hloop := ih target seen1 level hseen1
            cases hloopv : walkLoopF g cfg dir wt rest target seen1 level with
            | none => rw [hloopv] at hloop; simp at hloop
            | some p2 => simp [hwtv, hloopv]
        · rw [if_neg hc]
          rw [isSome_map]
          exact ih target seen level hseen

lemma walk_tree_terminates :
    ∀ (g : Graph) (cfg : Config) (dir : Dir) (fuel : Nat) (target : String)
      (seen : List String) (level : Nat),
      unseenDataCount g (seen ++ [target]) < fuel →
      (walk_tree g cfg dir fuel target seen level).isSome := by
  intro g cfg dir fuel
  induction fuel with
  | zero =>
    intro target seen level h
    exact absurd h (Nat.not_lt_zero _)
  | succ f ih =>
    intro target seen level h
    simp only [walk_tree]
    exact walkLoopF_isSome g cfg dir _ f
      (fun t s l o s' hh => walk_tree_seen_prefix g cfg dir f t s l o s' hh)
      (fun t s l hh => ih t s l hh)
      (neighbors g dir target) target (seen ++ [target]) level
      (Nat.lt_succ_iff.mp h)

/-- C1 — `walk_tree` terminates on every graph, in either direction, from
any starting node, even in the presence of cycles: any fuel exceeding the
number of data-carrying nodes not yet seen suffices (the Python recursion
always recurses on a data-carrying node it just added to the shared `seen`
list, so this measure shrinks at each call).  On the concrete 2-cycle
`A -> B -> A`, the unbounded-depth successor walk from `A` expands `B`
(emitting its edge data) and then reports `A` again — flagged as already
seen, with its edge data, and with no further expansion. -/
theorem walk_tree_cycle_safe_termination :
    (∀ (g : Graph) (cfg : Config) (dir : Dir) (fuel : Nat) (target : String)
        (seen : List String) (level : Nat),
        unseenDataCount g (seen ++ [target]) < fuel →
        (walk_tree g cfg dir fuel target seen level).isSome)
    ∧ walk_tree twoCycle cfgWalk Dir.succs 5 "A" [] 1
        = some ([Entry.node [("name", GVal.s "B"), ("type", GVal.s "thing")] false 1,
                 Entry.edge [("type", GVal.s "link"), ("link_type", GVal.s "ab")] 1,
                 Entry.node [("name", GVal.s "A"), ("type", GVal.s "thing")] true 2,
                 Entry.edge [("type", GVal.s "link"), ("link_type", GVal.s "ba")] 2],
                ["A", "B"]) :=
  ⟨walk_tree_terminates, by decide⟩

/-- C1 witness: the termination bound of `walk_tree_cycle_safe_termination`
instantiated on the cyclic graph itself — fuel 3 suffices for the
predecessor walk from `B`. -/
theorem walk_tree_cycle_safe_termination_witness :
    (walk_tree twoCycle cfgWalk Dir.preds 3 "B" [] 1).isSome :=
  walk_tree_cycle_safe_termination.1 twoCycle cfgWalk Dir.preds 3 "B" [] 1 (by decide)

/-! ### C6: undefined references -/

/-- C6 counterexample — the claim as stated is false: the key
`"AttachToIFoo"` has in-degree 1 and no attribute data, yet `missing_nodes`
does not report it, because the diagnostic pass skips every key starting
with `"AttachToI"`. -/
theorem missing_nodes_attachtoi_counterexample :
    0 < g6.inDegree "AttachToIFoo"
      ∧ g6.nodeData "AttachToIFoo" = []
      ∧ "AttachToIFoo" ∈ g6.nodeOrder
      ∧ "AttachToIFoo" ∉ missing_nodes g6 := by decide

/-- C6 (amended) — for every node key with in-degree above zero and no
attribute data that does not start with `"AttachToI"`, `missing_nodes`
reports it; and a traversal reaching a data-less neighbor emits the
"undefined reference" entry for it and does not expand it (no recursive
call, `seen` unchanged). -/
theorem missing_nodes_reports_undefined :
    (∀ (g : Graph) (k : String), k ∈ g.nodeOrder → g.nodeData k = [] →
        strStartsWith k "AttachToI" = false → 0 < g.inDegree k →
        k ∈ missing_nodes g)
    ∧ (∀ (g : Graph) (cfg : Config) (dir : Dir) wt (k : String) rest target seen level,
        g.nodeData k = [] →
        walkLoopF g cfg dir wt (k :: rest) target seen level
          = (walkLoopF g cfg dir wt rest target seen level).map
              (fun p => (Entry.undefined k level :: p.1, p.2))) := by
  constructor
  · intro g k hmem hdata hpre hdeg
    unfold missing_nodes
    refine List.mem_filter.mpr ⟨hmem, ?_⟩
    rw [hdata, hpre]
    simp [alookup, hdeg]
  · intro g cfg dir wt k rest target seen level hdata
    have hig : typeIgnored cfg [] = false := rfl
    simp [walkLoopF, hdata, hig]

/-- C6 witness: concrete instances of `missing_nodes_reports_undefined`:
`"Zork"` is reported, and a walk step over the data-less neighbor `"Zork"`
emits the undefined-reference entry without expanding. -/
theorem missing_nodes_reports_undefined_witness :
    "Zork" ∈ missing_nodes gU
      ∧ walkLoopF gU cfg0 Dir.succs (fun _ s _ => some ([], s))
          ["Zork"] "X" ["X"] 1 = some ([Entry.undefined "Zork" 1], ["X"]) :=
  ⟨missing_nodes_reports_undefined.1 gU "Zork" (by decide) (by decide)
      (by decide) (by decide),
   by
    rw [missing_nodes_reports_undefined.2 gU cfg0 Dir.succs
      (fun _ s _ => some ([], s)) "Zork" [] "X" ["X"] 1 (by decide)]
    decide⟩

/-! ### C7: null-sentinel condition references -/

/-- C7 — a conditional element whose condition target is the literal
`{x:Null}` sentinel yields the suppressed descriptor (`ok none`), and the
formflow condition loop consequently adds no edge for such elements: the
loop computes the same graph as if the suppressed elements were absent. -/
theorem condition_null_sentinel_suppressed :
    (∀ attrib,
        alookup (build_dict attrib condTopics) "condition"
          = some (GVal.s "\x7bx:Null\x7d") →
        condition_dict attrib = Except.ok none)
    ∧ (∀ guid g elems,
        addConditionEdges guid g elems
          = addConditionEdges guid g (elems.filter (fun a => !(isSuppressed a)))) := by
  constructor
  · intro attrib h
    simp [condition_dict, h]
  · intro guid g elems
    induction elems generalizing g with
    | nil => rfl
    | cons a t ih =>
      cases hc : condition_dict a with
      | error e =>
        have hs : isSuppressed a = false := by simp [isSuppressed, hc]
        simp [addConditionEdges, hc, hs]
      | ok o =>
        cases o with
        | none =>
          have hs : isSuppressed a = true := by simp [isSuppressed, hc]
          simp [addConditionEdges, hc, hs, ih]
        | some c =>
          have hs : isSuppressed a = false := by simp [isSuppressed, hc]
          cases hl : alookup c "condition" with
          | some v =>
            cases v with
            | s sv => simp [addConditionEdges, hc, hs, hl, ih]
            | lst vs => simp [addConditionEdges, hc, hs, hl]
          | none => simp [addConditionEdges, hc, hs, hl]

/-- C7 witness: a concrete `ConditionalIfActivity` element with the
`{x:Null}` target is suppressed, by `condition_null_sentinel_suppressed`. -/
theorem condition_null_sentinel_suppressed_witness :
    condition_dict [("SelectedCondition", "\x7bx:Null\x7d"), ("DisplayName", "c")]
      = Except.ok none :=
  condition_null_sentinel_suppressed.1
    [("SelectedCondition", "\x7bx:Null\x7d"), ("DisplayName", "c")] (by decide)

/-! ### C3: edge matching -/

/-- C3 — evaluation of `select_nodes` at the failing input: node `n`'s
second outgoing edge matches the pattern `"goalword"`, edge matching is
enabled and nothing is ignored, yet `n` is not returned, because the
misplaced `break` makes the loop examine only the first non-ignored edge.
(The function's own docstring says a node matches "if any of the edges
also match".) -/
theorem select_nodes_edge_match_break_bug :
    (g3.outEdges "n").getLast?
        = some [("type", GVal.s "link"), ("link_type", GVal.s "goalword")]
      ∧ match_query "goalword"
          [("type", GVal.s "link"), ("link_type", GVal.s "goalword")] = true
      ∧ cfgEdges.edgeMatch = true
      ∧ cfgEdges.ignoreTypes = []
      ∧ (select_nodes g3 cfgEdges "goalword").1 = [] := by decide

/-! ### C8: type discriminator stability -/

lemma alookup_ensureNode (ns : List (String × Bag)) (x k : String) :
    alookup (ensureNode ns x) k
      = match alookup ns k with
        | some b => some b
        | none => if x = k then some ([] : Bag) else none := by
  unfold ensureNode
  by_cases h : (alookup ns x).isSome
  · rw [if_pos h]
    cases hk : alookup ns k with
    | some b => simp [hk]
    | none =>
      have hxk : ¬ x = k := by
        intro he
        subst he
        rw [hk] at h
        simp at h
      simp [hk, hxk]
  · rw [if_neg h]
    rw [alookup_append]
    cases hk : alookup ns k <;> simp [hk, alookup]

lemma typeOf_addEdge (g : Graph) (u v : String) (bag : Bag) (k : String) :
    typeOf (g.addEdge u v bag) k = typeOf g k := by
  unfold typeOf Graph.nodeData Graph.addEdge
  simp only []
  rw [alookup_ensureNode, alookup_ensureNode]
  cases hk : alookup g.nodes k with
  | some b => rfl
  | none =>
    by_cases hu : u = k
    · simp [hu, alookup]
    · by_cases hv : v = k <;> simp [hu, hv, alookup]

lemma typeOf_annB (g : Graph) (n : String) (b : Bag) :
    alookup (annB g n b) "type" = alookup b "type" := by
  unfold annB
  by_cases h : b.isEmpty
  · simp [h]
  · simp only [h, Bool.false_eq_true, if_false]
    rw [alookup_aset]
    rw [if_neg (by decide)]

lemma typeOf_select (g : Graph) (cfg : Config) (q : String) (k : String) :
    typeOf ((select_nodes g cfg q).2) k = typeOf g k := by
  unfold typeOf
  rw [select_nodes_nodeData]
  exact typeOf_annB g k _

lemma typeOf_addPropertyEdge (g : Graph) (cfg : Config) (parent prop : String)
    (attrs : Bag) (k : String) :
    typeOf (add_property_edge_if_exists g cfg parent prop attrs) k = typeOf g k := by
  unfold add_property_edge_if_exists
  by_cases h : g.hasNode (lastDotPart prop) = true
  · rw [if_pos h]
    exact typeOf_addEdge g parent (lastDotPart prop) attrs k
  · rw [if_neg h]
    have ht0 : typeOf ((select_nodes g cfg
        ("name: " ++ firstDashPart (lastDotPart prop))).2) k = typeOf g k :=
      typeOf_select g cfg _ k
    cases hs : select_nodes g cfg ("name: " ++ firstDashPart (lastDotPart prop)) with
    | mk ns g2 =>
      have ht : typeOf g2 k = typeOf g k := by rw [hs] at ht0; exact ht0
      cases ns with
      | nil => simpa only [hs] using ht
      | cons n t =>
        obtain ⟨nk, nd⟩ := n
        cases t with
        | nil =>
          simp only [hs]
          rw [typeOf_addEdge]
          exact ht
        | cons b t2 => simpa only [hs] using ht

lemma nodeData_addNode (g : Graph) (k' : String) (bag : Bag) (k : String) :
    (g.addNode k' bag).nodeData k
      = if k = k' then
          (match alookup g.nodes k' with
            | some b => updateBag b bag
            | none => bag)
        else g.nodeData k := by
  unfold Graph.addNode Graph.hasNode Graph.nodeData
  by_cases hh : (alookup g.nodes k').isSome
  · rw [if_pos hh]
    have hmap : alookup (g.nodes.map
        (fun p => if p.1 = k' then (p.1, updateBag p.2 bag) else p)) k
        = if k = k' then (alookup g.nodes k).map (fun b => updateBag b bag)
          else alookup g.nodes k :=
      alookup_map_update g.nodes k' (fun b => updateBag b bag) k
    show (alookup (g.nodes.map
        (fun p => if p.1 = k' then (p.1, updateBag p.2 bag) else p)) k).getD [] = _
    rw [hmap]
    by_cases hk : k = k'
    · subst hk
      cases hsome : alookup g.nodes k with
      | none => rw [hsome] at hh; simp at hh
      | some b => simp [hsome]
    · simp [hk]
  · rw [if_neg hh]
    show (alookup (g.nodes ++ [(k', bag)]) k).getD [] = _
    rw [alookup_append]
    by_cases hk : k = k'
    · subst hk
      have hnone : alookup g.nodes k = none := by
        cases hx : alookup g.nodes k
        · rfl
        · rw [hx] at hh; simp at hh
      simp [hnone, alookup]
    · cases hx : alookup g.nodes k with
      | some b => simp [hx, hk]
      | none =>
        have hne : ¬ k' = k := fun he => hk he.symm
        simp [hx, alookup, hne, hk]

lemma typeOf_addNode_ne (g : Graph) (k' : String) (bag : Bag) (k : String)
    (h : ¬ k = k') : typeOf (g.addNode k' bag) k = typeOf g k := by
  unfold typeOf
  rw [nodeData_addNode, if_neg h]

lemma typeOf_addNode_self (g : Graph) (k' : String) (bag : Bag) (t : GVal)
    (hfirst : alookup bag "type" = some t) (hlast : uLast bag "type" = some t) :
    typeOf (g.addNode k' bag) k' = some t := by
  unfold typeOf
  rw [nodeData_addNode, if_pos rfl]
  cases hx : alookup g.nodes k' with
  | none => exact hfirst
  | some b =>
    simp only []
    rw [alookup_updateBag, hlast]

lemma nodupKeys_bdStep (attrib : List (String × String)) {result : Bag}
    (h : NodupKeys result) (p : String × String) :
    NodupKeys (bdStep attrib result p) := by
  unfold bdStep
  cases alookup attrib p.1 with
  | none => exact h
  | some v =>
    cases hr : alookup result p.2 with
    | none =>
      unfold NodupKeys at h ⊢
      rw [List.map_append]
      refine List.Nodup.append h (List.nodup_singleton _) ?_
      intro a ha hb
      simp only [List.map_cons, List.map_nil, List.mem_singleton] at hb
      subst hb
      exact (alookup_eq_none_iff _ _).mp hr ha
    | some val =>
      cases val with
      | s old => exact nodupKeys_aset h _ _
      | lst vs => exact nodupKeys_aset h _ _

lemma nodupKeys_build_dict (attrib topics : List (String × String)) :
    NodupKeys (build_dict attrib topics) := by
  have haux : ∀ (ts : List (String × String)) (acc : Bag), NodupKeys acc →
      NodupKeys (ts.foldl (bdStep attrib) acc) := by
    intro ts
    induction ts with
    | nil => intro acc h; exact h
    | cons p t ih =>
      intro acc h
      exact ih (bdStep attrib acc p) (nodupKeys_bdStep attrib h p)
  exact haux topics [] List.nodup_nil

lemma typeOf_addTestRefs (tn rt : String) (table : List (String × String))
    (k : String) :
    ∀ (ms : List String) (g : Graph),
      typeOf (addTestRefs tn rt table g ms) k = typeOf g k := by
  intro ms
  induction ms with
  | nil => intro g; rfl
  | cons m rest ih =>
    intro g
    show typeOf (addTestRefs tn rt table (g.addEdge _ _ _) rest) k = _
    rw [ih, typeOf_addEdge]

lemma typeOf_addIndexField (cfg : Config) (en : String) (g : Graph)
    (field : List (String × String)) (g' : Graph)
    (h : addIndexField cfg en g field = Except.ok g') (k : String) :
    typeOf g' k = typeOf g k ∨ typeOf g' k = some (GVal.s "index") := by
  unfold addIndexField at h
  cases hname : alookup (aset (aset (build_dict field indexTopics) "entity" (GVal.s en))
      "type" (GVal.s "index")) "name" with
  | none => simp [hname] at h
  | some val =>
    cases val with
    | lst vs => simp [hname] at h
    | s nm =>
      simp only [hname] at h
      have hnode : ∀ gx : Graph,
          typeOf (gx.addNode (strUpper nm) [("type", GVal.s "index"), ("name", GVal.s nm)]) k
            = typeOf gx k ∨
          typeOf (gx.addNode (strUpper nm) [("type", GVal.s "index"), ("name", GVal.s nm)]) k
            = some (GVal.s "index") := by
        intro gx
        by_cases hk : k = strUpper nm
        · subst hk
          right
          exact typeOf_addNode_self gx (strUpper nm) _ (GVal.s "index") rfl rfl
        · left
          exact typeOf_addNode_ne gx _ _ k hk
      cases hprop : alookup (aset (aset (build_dict field indexTopics) "entity" (GVal.s en))
          "type" (GVal.s "index")) "property" with
      | some pv =>
        simp only [hprop, Except.ok.injEq] at h
        subst h
        rw [typeOf_addPropertyEdge, typeOf_addEdge]
        exact hnode g
      | none =>
        simp only [hprop, Except.ok.injEq] at h
        subst h
        rw [typeOf_addEdge]
        exact hnode g

lemma typeOf_add_index (cfg : Config) (en : String) (k : String) :
    ∀ (mappings : List (List (String × String))) (g g' : Graph),
      add_index_to_graph g cfg mappings en = Except.ok g' →
      typeOf g' k = typeOf g k ∨ typeOf g' k = some (GVal.s "index") := by
  intro mappings
  induction mappings with
  | nil =>
    intro g g' h
    simp only [add_index_to_graph, Except.ok.injEq] at h
    subst h
    exact Or.inl rfl
  | cons field rest ih =>
    intro g g' h
    simp only [add_index_to_graph] at h
    cases hf : addIndexField cfg en g field with
    | error e => rw [hf] at h; exact absurd h (by simp)
    | ok g1 =>
      rw [hf] at h
      simp only at h
      cases ih g1 g' h with
      | inl h1 =>
        rw [h1]
        exact typeOf_addIndexField cfg en g field g1 hf k
      | inr h1 => exact Or.inr h1

lemma aggPc_type (pc0 : Bag) (a b c : GVal) :
    alookup (aset (aset (aset (aset pc0 "name" a) "type" (GVal.s "property"))
      "calculated_property" b) "entity" c) "type" = some (GVal.s "property") := by
  rw [alookup_aset, if_neg (by decide), alookup_aset, if_neg (by decide),
    alookup_aset, if_pos rfl]

lemma aggPc_nodup {pc0 : Bag} (h : NodupKeys pc0) (a b c : GVal) :
    NodupKeys (aset (aset (aset (aset pc0 "name" a) "type" (GVal.s "property"))
      "calculated_property" b) "entity" c) :=
  nodupKeys_aset (nodupKeys_aset (nodupKeys_aset (nodupKeys_aset h _ _) _ _) _ _) _ _

lemma typeOf_addNode_propBag (gx : Graph) (nodeName : String) (pc : Bag) (k : String)
    (hfirst : alookup pc "type" = some (GVal.s "property"))
    (hlast : uLast pc "type" = some (GVal.s "property")) :
    typeOf (gx.addNode nodeName pc) k = typeOf gx k
      ∨ typeOf (gx.addNode nodeName pc) k = some (GVal.s "property") := by
  by_cases hk : k = nodeName
  · subst hk
    exact Or.inr (typeOf_addNode_self gx k pc _ hfirst hlast)
  · exact Or.inl (typeOf_addNode_ne gx _ _ k hk)

lemma typeOf_addAggregateRule (en pn ref : String) (g : Graph)
    (prop : List (String × String)) (g' : Graph) (k : String)
    (h : addAggregateRule en pn ref g prop = Except.ok g') :
    typeOf g' k = typeOf g k ∨ typeOf g' k = some (GVal.s "property") := by
  have hnd0 : NodupKeys (build_dict prop aggTopics) := nodupKeys_build_dict prop aggTopics
  simp only [addAggregateRule] at h
  split at h
  · exact absurd h (by simp)
  · split at h
    · exact absurd h (by simp)
    · split at h
      · split at h
        · simp only [Except.ok.injEq] at h
          subst h
          rw [typeOf_addEdge, typeOf_addEdge]
          refine typeOf_addNode_propBag g _ _ k ?_ ?_
          · rw [alookup_aset, if_neg (by decide)]
            exact aggPc_type _ _ _ _
          · rw [uLast_eq_alookup (nodupKeys_aset (aggPc_nodup hnd0 _ _ _) _ _)]
            rw [alookup_aset, if_neg (by decide)]
            exact aggPc_type _ _ _ _
        · simp only [Except.ok.injEq] at h
          subst h
          rw [typeOf_addEdge, typeOf_addEdge]
          refine typeOf_addNode_propBag g _ _ k (aggPc_type _ _ _ _)
            (by rw [uLast_eq_alookup (aggPc_nodup hnd0 _ _ _)]; exact aggPc_type _ _ _ _)
      · exact absurd h (by simp)
      · split at h
        · simp only [Except.ok.injEq] at h
          subst h
          rw [typeOf_addEdge]
          refine typeOf_addNode_propBag g _ _ k ?_ ?_
          · rw [alookup_aset, if_neg (by decide)]
            exact aggPc_type _ _ _ _
          · rw [uLast_eq_alookup (nodupKeys_aset (aggPc_nodup hnd0 _ _ _) _ _)]
            rw [alookup_aset, if_neg (by decide)]
            exact aggPc_type _ _ _ _
        · simp only [Except.ok.injEq] at h
          subst h
          rw [typeOf_addEdge]
          refine typeOf_addNode_propBag g _ _ k (aggPc_type _ _ _ _)
            (by rw [uLast_eq_alookup (aggPc_nodup hnd0 _ _ _)]; exact aggPc_type _ _ _ _)

lemma typeOf_addAggList (en pn ref : String) (k : String) :
    ∀ (aggs : List (List (String × String))) (g g' : Graph),
      addAggList en pn ref g aggs = Except.ok g' →
      typeOf g' k = typeOf g k ∨ typeOf g' k = some (GVal.s "property") := by
  intro aggs
  induction aggs with
  | nil =>
    intro g g' h
    simp only [addAggList, Except.ok.injEq] at h
    subst h
    exact Or.inl rfl
  | cons prop rest ih =>
    intro g g' h
    simp only [addAggList] at h
    cases hf : addAggregateRule en pn ref g prop with
    | error e => rw [hf] at h; exact absurd h (by simp)
    | ok g1 =>
      rw [hf] at h
      simp only at h
      cases ih g1 g' h with
      | inl h1 =>
        rw [h1]
        exact typeOf_addAggregateRule en pn ref g prop g1 k hf
      | inr h1 => exact Or.inr h1

lemma typeOf_addMetaProps (en : String) (k : String) :
    ∀ (props : List (String × List (List (String × String)))) (g g' : Graph),
      addMetaProps en g props = Except.ok g' →
      typeOf g' k = typeOf g k ∨ typeOf g' k = some (GVal.s "property") := by
  intro props
  induction props with
  | nil =>
    intro g g' h
    simp only [addMetaProps, Except.ok.injEq] at h
    subst h
    exact Or.inl rfl
  | cons p rest ih =>
    intro g g' h
    obtain ⟨name, aggs⟩ := p
    simp only [addMetaProps] at h
    cases hagg : addAggList en name (name ++ "-" ++ en)
        (g.addNode (name ++ "-" ++ en)
          [("name", GVal.s name), ("type", GVal.s "property"), ("entity", GVal.s en)])
        aggs with
    | error e => rw [hagg] at h; exact absurd h (by simp)
    | ok g2 =>
      rw [hagg] at h
      simp only at h
      cases ih g2 g' h with
      | inl h1 =>
        rw [h1]
        cases typeOf_addAggList en name (name ++ "-" ++ en) k aggs _ g2 hagg with
        | inl h2 =>
          rw [h2]
          exact typeOf_addNode_propBag g (name ++ "-" ++ en) _ k rfl rfl
        | inr h2 => exact Or.inr h2
      | inr h1 => exact Or.inr h1

lemma typeOf_add_metadata (g : Graph) (m : MetaRec) (rdoFld conFld : String)
    (g' : Graph) (k : String)
    (h : add_metadata_to_graph g m rdoFld conFld = Except.ok g') :
    typeOf g' k = typeOf g k ∨ typeOf g' k = some (GVal.s "entity")
      ∨ typeOf g' k = some (GVal.s "property") := by
  unfold add_metadata_to_graph at h
  have hbase : ∀ gx : Graph,
      typeOf (gx.addNode m.name
        [("name", GVal.s m.name), ("type", GVal.s "entity"), ("entity", GVal.s m.name)]) k
          = typeOf gx k
        ∨ typeOf (gx.addNode m.name
            [("name", GVal.s m.name), ("type", GVal.s "entity"), ("entity", GVal.s m.name)]) k
          = some (GVal.s "entity") := by
    intro gx
    by_cases hk : k = m.name
    · subst hk
      exact Or.inr (typeOf_addNode_self gx m.name _ _ rfl rfl)
    · exact Or.inl (typeOf_addNode_ne gx _ _ k hk)
  have hfin : typeOf g' k
      = typeOf (g.addNode m.name
          [("name", GVal.s m.name), ("type", GVal.s "entity"),
            ("entity", GVal.s m.name)]) k →
      typeOf g' k = typeOf g k ∨ typeOf g' k = some (GVal.s "entity")
        ∨ typeOf g' k = some (GVal.s "property") := by
    intro h1
    cases hbase g with
    | inl h2 => exact Or.inl (h1.trans h2)
    | inr h2 => exact Or.inr (Or.inl (h1.trans h2))
  cases hicon : alookup m.data "icon" with
  | some nv =>
    cases nv with
    | d mm => simp [hicon] at h
    | s i =>
      simp only [hicon] at h
      have hmp := typeOf_addMetaProps m.name k m.properties _ g' h
      cases hmp with
      | inr h1 => exact Or.inr (Or.inr h1)
      | inl h1 =>
        rw [typeOf_addEdge] at h1
        cases hrdo : alookup m.data rdoFld with
        | some nv2 =>
          cases nv2 with
          | d sub =>
            simp only [hrdo] at h1
            cases hcon : alookup sub conFld with
            | some c =>
              simp only [hcon] at h1
              rw [typeOf_addEdge] at h1
              exact hfin h1
            | none =>
              simp only [hcon] at h1
              exact hfin h1
          | s sv =>
            simp only [hrdo] at h1
            exact hfin h1
        | none =>
          simp only [hrdo] at h1
          exact hfin h1
  | none =>
    simp only [hicon] at h
    have hmp := typeOf_addMetaProps m.name k m.properties _ g' h
    cases hmp with
    | inr h1 => exact Or.inr (Or.inr h1)
    | inl h1 =>
      cases hrdo : alookup m.data rdoFld with
      | some nv2 =>
        cases nv2 with
        | d sub =>
          simp only [hrdo] at h1
          cases hcon : alookup sub conFld with
          | some c =>
            simp only [hcon] at h1
            rw [typeOf_addEdge] at h1
            exact hfin h1
          | none =>
            simp only [hcon] at h1
            exact hfin h1
        | s sv =>
          simp only [hrdo] at h1
          exact hfin h1
      | none =>
        simp only [hrdo] at h1
        exact hfin h1

lemma typeOf_add_test (g : Graph) (tn : String) (ms ts fs : List String)
    (l1 l2 l3 : List (String × String)) (k : String) :
    typeOf (add_test_to_graph g tn ms ts fs l1 l2 l3) k = typeOf g k
      ∨ typeOf (add_test_to_graph g tn ms ts fs l1 l2 l3) k = some (GVal.s "test") := by
  unfold add_test_to_graph
  rw [typeOf_addTestRefs, typeOf_addTestRefs, typeOf_addTestRefs]
  by_cases hk : k = tn
  · subst hk
    exact Or.inr (typeOf_addNode_self g k _ _ rfl rfl)
  · exact Or.inl (typeOf_addNode_ne g _ _ k hk)

lemma typeOf_addCaptionNodes (cfg : Config) (tg en : String) (k : String) :
    ∀ (caps : List (String × Bag)) (g : Graph),
      (∀ p ∈ caps, NodupKeys p.2) →
      typeOf (addCaptionNodes cfg tg en g caps) k = typeOf g k
        ∨ typeOf (addCaptionNodes cfg tg en g caps) k = some (GVal.s "caption") := by
  intro caps
  induction caps with
  | nil => intro g _; exact Or.inl rfl
  | cons p rest ih =>
    intro g hnd
    obtain ⟨caption, cd⟩ := p
    have hndcd : NodupKeys cd := hnd (caption, cd) (List.mem_cons_self _ _)
    have hndrest : ∀ q ∈ rest, NodupKeys q.2 := fun q hq => hnd q (List.mem_cons_of_mem _ hq)
    have hcomb : ∀ (g2 : Graph),
        (typeOf g2 k = typeOf g k ∨ typeOf g2 k = some (GVal.s "caption")) →
        typeOf (addCaptionNodes cfg tg en g2 rest) k = typeOf g k
          ∨ typeOf (addCaptionNodes cfg tg en g2 rest) k = some (GVal.s "caption") := by
      intro g2 hg2
      cases ih g2 hndrest with
      | inl h1 => rw [h1]; exact hg2
      | inr h1 => exact Or.inr h1
    have hself : ∀ (gx : Graph) (ref : String),
        typeOf ((gx.addNode ref (updateBag cd
            [("name", GVal.s caption), ("type", GVal.s "caption")])).addEdge
            tg ref capLinkDict) k = typeOf gx k
          ∨ typeOf ((gx.addNode ref (updateBag cd
              [("name", GVal.s caption), ("type", GVal.s "caption")])).addEdge
              tg ref capLinkDict) k = some (GVal.s "caption") := by
      intro gx ref
      rw [typeOf_addEdge]
      by_cases hk : k = ref
      · subst hk
        refine Or.inr (typeOf_addNode_self gx k _ _ ?_ ?_)
        · show alookup (aset (aset cd "name" (GVal.s caption))
              "type" (GVal.s "caption")) "type" = _
          rw [alookup_aset, if_pos rfl]
        · show uLast (aset (aset cd "name" (GVal.s caption))
              "type" (GVal.s "caption")) "type" = _
          rw [uLast_eq_alookup (nodupKeys_aset (nodupKeys_aset hndcd _ _) _ _)]
          rw [alookup_aset, if_pos rfl]
      · exact Or.inl (typeOf_addNode_ne gx _ _ k hk)
    simp only [addCaptionNodes]
    cases hprop : alookup (updateBag cd
        [("name", GVal.s caption), ("type", GVal.s "caption")]) "property" with
    | some v =>
      simp only [hprop]
      by_cases htru : pyTruthy v = true
      · rw [if_pos htru]
        apply hcomb
        rw [typeOf_addPropertyEdge, typeOf_addPropertyEdge]
        exact hself g _
      · rw [if_neg htru]
        apply hcomb
        exact hself g _
    | none =>
      simp only [hprop]
      apply hcomb
      exact hself g _

/-- C8 counterexample — the claim as stated is false: the build-phase graph
`g8` holds node `"FOO"` with `type = "entity"` (created first), and
processing an index record whose field mapping is named `"Foo"` (whose
upper-cased index key collides with the entity key) re-adds node `"FOO"`
and replaces the already-set `type` with `"index"`. -/
theorem node_type_overwrite_counterexample :
    typeOf g8 "FOO" = some (GVal.s "entity")
      ∧ (match add_index_to_graph g8 cfg0 [[("name", "Foo")]] "FOO" with
          | Except.ok g' => typeOf g' "FOO"
          | Except.error _ => none) = some (GVal.s "index") := by decide

/-- C8 (amended) — each later per-kind handler that re-adds or augments an
existing node key writes only its own fixed kind discriminator(s): after
`add_index_to_graph` every node's `type` is either unchanged or `"index"`;
after `add_metadata_to_graph` it is either unchanged, `"entity"` or
`"property"`; after the test-record block it is either unchanged or
`"test"`; after the caption loop of `add_template_to_graph` it is either
unchanged or `"caption"` (for caption dictionaries with distinct keys, as
every Python dictionary has).  Hence a node's `type`, once set, never
changes to a different value — except when two distinct artifacts map to
the same node key, in which case the later handler overwrites it with its
own kind (the counterexample); same-kind re-adds leave the value as it
was. -/
theorem handler_type_writes :
    (∀ (g : Graph) (cfg : Config) (mappings : List (List (String × String)))
        (en : String) (g' : Graph) (k : String),
        add_index_to_graph g cfg mappings en = Except.ok g' →
        typeOf g' k = typeOf g k ∨ typeOf g' k = some (GVal.s "index"))
    ∧ (∀ (g : Graph) (m : MetaRec) (rdoFld conFld : String) (g' : Graph) (k : String),
        add_metadata_to_graph g m rdoFld conFld = Except.ok g' →
        typeOf g' k = typeOf g k ∨ typeOf g' k = some (GVal.s "entity")
          ∨ typeOf g' k = some (GVal.s "property"))
    ∧ (∀ (g : Graph) (tn : String) (ms ts fs : List String)
        (l1 l2 l3 : List (String × String)) (k : String),
        typeOf (add_test_to_graph g tn ms ts fs l1 l2 l3) k = typeOf g k
          ∨ typeOf (add_test_to_graph g tn ms ts fs l1 l2 l3) k
              = some (GVal.s "test"))
    ∧ (∀ (g : Graph) (cfg : Config) (tg en : String) (caps : List (String × Bag))
        (k : String),
        (∀ p ∈ caps, NodupKeys p.2) →
        typeOf (addCaptionNodes cfg tg en g caps) k = typeOf g k
          ∨ typeOf (addCaptionNodes cfg tg en g caps) k = some (GVal.s "caption")) :=
  ⟨fun g cfg mappings en g' k h => typeOf_add_index cfg en k mappings g g' h,
   fun g m rdoFld conFld g' k h => typeOf_add_metadata g m rdoFld conFld g' k h,
   fun g tn ms ts fs l1 l2 l3 k => typeOf_add_test g tn ms ts fs l1 l2 l3 k,
   fun g cfg tg en caps k h => typeOf_addCaptionNodes cfg tg en k caps g h⟩

/-- C8 witness: `handler_type_writes` instantiated on the concrete collision
input (index handler), on a fresh metadata record, on a test record, and on
a caption placeholder carrying a property, with the `ok` and distinct-key
hypotheses discharged by evaluation. -/
theorem handler_type_writes_witness :
    (typeOf g8idx "FOO" = typeOf g8 "FOO"
        ∨ typeOf g8idx "FOO" = some (GVal.s "index"))
      ∧ (typeOf gMeta "M" = typeOf g8 "M"
          ∨ typeOf gMeta "M" = some (GVal.s "entity")
          ∨ typeOf gMeta "M" = some (GVal.s "property"))
      ∧ (typeOf (add_test_to_graph g8 "T" [] [] [] [] [] []) "T" = typeOf g8 "T"
          ∨ typeOf (add_test_to_graph g8 "T" [] [] [] [] [] []) "T"
              = some (GVal.s "test"))
      ∧ (typeOf (addCaptionNodes cfg0 "T1" "E" g8
            [("Cap", [("property", GVal.s "p1")])]) "Cap-p1"
            = typeOf g8 "Cap-p1"
          ∨ typeOf (addCaptionNodes cfg0 "T1" "E" g8
              [("Cap", [("property", GVal.s "p1")])]) "Cap-p1"
              = some (GVal.s "caption")) :=
  ⟨handler_type_writes.1 g8 cfg0 [[("name", "Foo")]] "FOO" g8idx "FOO" rfl,
   handler_type_writes.2.1 g8 ⟨"M", [], []⟩ "r" "c" gMeta "M" rfl,
   handler_type_writes.2.2.1 g8 "T" [] [] [] [] [] [] "T",
   handler_type_writes.2.2.2 g8 cfg0 "T1" "E"
     [("Cap", [("property", GVal.s "p1")])] "Cap-p1"
     (by
       intro p hp
       rw [List.mem_singleton] at hp
       subst hp
       exact List.nodup_singleton "property")⟩

end GlowNav
